import Mathlib

/-!
# initgo: the `webapp` scaffolding command

A shallow embedding of `main.go` (package `main` of rogafe/initgo) and the
properties of its template substitution, name casing and workflow.

Go strings are byte sequences: `Str` is a list of byte values.  The parts of
the Go standard library that `main.go` calls (`strings`, `unicode/utf8`,
`path/filepath`) are embedded first, then the functions of `main.go`, then the
theorems.
-/

namespace Initgo

/-! ## Go strings and UTF-8 -/

/-- A Go string: its bytes, in order. -/
abbrev Str := List Nat

/-- The replacement rune U+FFFD (`utf8.RuneError`). -/
def RuneError : Nat := 0xFFFD

/-- Byte values below `utf8.RuneSelf` are single-byte runes. -/
def RuneSelf : Nat := 0x80

/-- UTF-8 encoding of a rune (`utf8.AppendRune`): surrogates and values above
U+10FFFF are written as U+FFFD. -/
def encodeRune (r : Nat) : Str :=
  if r < 0x80 then [r]
  else if r < 0x800 then [0xC0 + r / 64, 0x80 + r % 64]
  else if 0x10FFFF < r ∨ (0xD800 ≤ r ∧ r ≤ 0xDFFF) then [0xEF, 0xBF, 0xBD]
  else if r < 0x10000 then [0xE0 + r / 4096, 0x80 + r / 64 % 64, 0x80 + r % 64]
  else [0xF0 + r / 262144, 0x80 + r / 4096 % 64, 0x80 + r / 64 % 64, 0x80 + r % 64]

/-- The bytes of a string literal of the source text. -/
def lit (s : String) : Str := s.data.flatMap (fun c => encodeRune c.toNat)

/-- A continuation byte `10xxxxxx`. -/
def isCont (b : Nat) : Bool := decide (0x80 ≤ b ∧ b ≤ 0xBF)

/-- Lowest second byte that `utf8` accepts after the leading byte `b0`. -/
def acceptLo (b0 : Nat) : Nat :=
  if b0 = 0xE0 then 0xA0 else if b0 = 0xF0 then 0x90 else 0x80

/-- Highest second byte that `utf8` accepts after the leading byte `b0`. -/
def acceptHi (b0 : Nat) : Nat :=
  if b0 = 0xED then 0x9F else if b0 = 0xF4 then 0x8F else 0xBF

/-- First rune of a string and its width in bytes
(`utf8.DecodeRuneInString`): an invalid or truncated encoding is
`(RuneError, 1)`, the empty string `(RuneError, 0)`. -/
def decodeRune : Str → Nat × Nat
  | [] => (RuneError, 0)
  | b0 :: rest =>
    if b0 < 0x80 then (b0, 1)
    else if 0xC2 ≤ b0 ∧ b0 ≤ 0xDF then
      match rest with
      | b1 :: _ =>
        if isCont b1 then ((b0 - 0xC0) * 64 + (b1 - 0x80), 2) else (RuneError, 1)
      | [] => (RuneError, 1)
    else if 0xE0 ≤ b0 ∧ b0 ≤ 0xEF then
      match rest with
      | b1 :: b2 :: _ =>
        if acceptLo b0 ≤ b1 ∧ b1 ≤ acceptHi b0 ∧ isCont b2 = true then
          ((b0 - 0xE0) * 4096 + (b1 - 0x80) * 64 + (b2 - 0x80), 3)
        else (RuneError, 1)
      | _ => (RuneError, 1)
    else if 0xF0 ≤ b0 ∧ b0 ≤ 0xF4 then
      match rest with
      | b1 :: b2 :: b3 :: _ =>
        if acceptLo b0 ≤ b1 ∧ b1 ≤ acceptHi b0 ∧ isCont b2 = true ∧ isCont b3 = true then
          ((b0 - 0xF0) * 262144 + (b1 - 0x80) * 4096 + (b2 - 0x80) * 64 + (b3 - 0x80), 4)
        else (RuneError, 1)
      | _ => (RuneError, 1)
    else (RuneError, 1)

/-- The runes a `for _, r := range s` loop visits.  The counter is the number
of bytes still to skip: the rest of the rune decoded last. -/
def runesFrom : Nat → Str → List Nat
  | _, [] => []
  | k + 1, _ :: rest => runesFrom k rest
  | 0, b :: rest =>
    (decodeRune (b :: rest)).1 :: runesFrom ((decodeRune (b :: rest)).2 - 1) rest

/-- The runes of a string in order, invalid bytes read as `RuneError`. -/
def runes (s : Str) : List Nat := runesFrom 0 s

/-- Whether a byte can start a rune (`utf8.RuneStart`). -/
def RuneStart (b : Nat) : Bool := !isCont b

/-- Last rune of a string and its width (`utf8.DecodeLastRuneInString`): the
search for the start of the rune goes back over at most three bytes before the
last one. -/
def decodeLastRune (s : Str) : Nat × Nat :=
  match s.reverse with
  | [] => (RuneError, 0)
  | last :: before =>
    if last < 0x80 then (last, 1)
    else
      let cand := before.take 3
      let k := cand.findIdx RuneStart
      let n := if k < cand.length then k + 2 else min 5 s.length
      let res := decodeRune (s.drop (s.length - n))
      if res.2 ≠ n then (RuneError, 1) else res

/-! ## Package `strings` -/

/-- Go `strings.HasPrefix`. -/
def HasPrefix (s pre : Str) : Bool :=
  decide (pre.length ≤ s.length) && decide (s.take pre.length = pre)

/-- Go `strings.HasSuffix`. -/
def HasSuffix (s suffix : Str) : Bool :=
  decide (suffix.length ≤ s.length) && decide (s.drop (s.length - suffix.length) = suffix)

/-- Go `strings.TrimSuffix`. -/
def TrimSuffix (s suffix : Str) : Str :=
  if HasSuffix s suffix then s.take (s.length - suffix.length) else s

/-- Leftmost, non-overlapping replacement of a non-empty `old`.  The counter
is the number of bytes of the match found last that are still to skip. -/
def replaceFrom (old new : Str) : Nat → Str → Str
  | _, [] => []
  | k + 1, _ :: rest => replaceFrom old new k rest
  | 0, c :: rest =>
    if HasPrefix (c :: rest) old then new ++ replaceFrom old new (old.length - 1) rest
    else c :: replaceFrom old new 0 rest

/-- Replacement of the empty string: `new` is written after every rune.  The
counter is the number of bytes of the current rune still to copy. -/
def insertFrom (new : Str) : Nat → Str → Str
  | _, [] => []
  | k + 1, b :: rest => b :: ((if k = 0 then new else []) ++ insertFrom new k rest)
  | 0, b :: rest =>
    b :: ((if (decodeRune (b :: rest)).2 ≤ 1 then new else [])
      ++ insertFrom new ((decodeRune (b :: rest)).2 - 1) rest)

/-- Go `strings.ReplaceAll(s, old, new)`.  With an empty `old` Go writes `new`
before the first rune and after every rune. -/
def ReplaceAll (s old new : Str) : Str :=
  if old = new then s
  else if old = [] then new ++ insertFrom new 0 s
  else replaceFrom old new 0 s

/-- Go `strings.Contains`. -/
def Contains (s substr : Str) : Bool := decide (substr <:+: s)

/-- Go `strings.Map` for a mapping that never returns a negative rune: each
rune of `s`, invalid bytes read as `RuneError`, is mapped and re-encoded. -/
def Map (mapping : Nat → Nat) (s : Str) : Str :=
  (runes s).flatMap (fun r => encodeRune (mapping r))

/-- The non-ASCII part of Go's Unicode case tables (`unicode.CaseRanges`), a
table of the standard library the program is linked with. -/
structure CaseTables where
  /-- Upper-case mapping of a rune above U+007F. -/
  upper : Nat → Nat
  /-- Lower-case mapping of a rune above U+007F. -/
  lower : Nat → Nat

/-- Go `unicode.ToUpper`: ASCII is handled inline, the rest by the tables. -/
def unicodeToUpper (t : CaseTables) (r : Nat) : Nat :=
  if r ≤ 0x7F then (if 0x61 ≤ r ∧ r ≤ 0x7A then r - 0x20 else r) else t.upper r

/-- Go `unicode.ToLower`: ASCII is handled inline, the rest by the tables. -/
def unicodeToLower (t : CaseTables) (r : Nat) : Nat :=
  if r ≤ 0x7F then (if 0x41 ≤ r ∧ r ≤ 0x5A then r + 0x20 else r) else t.lower r

/-- Go `strings.ToUpper`: byte by byte on an ASCII-only string, and through
`strings.Map(unicode.ToUpper, s)` otherwise. -/
def ToUpper (t : CaseTables) (s : Str) : Str :=
  if s.all (fun c => decide (c < RuneSelf)) then
    s.map (fun c => if 0x61 ≤ c ∧ c ≤ 0x7A then c - 0x20 else c)
  else Map (unicodeToUpper t) s

/-- Go `strings.ToLower`: byte by byte on an ASCII-only string, and through
`strings.Map(unicode.ToLower, s)` otherwise. -/
def ToLower (t : CaseTables) (s : Str) : Str :=
  if s.all (fun c => decide (c < RuneSelf)) then
    s.map (fun c => if 0x41 ≤ c ∧ c ≤ 0x5A then c + 0x20 else c)
  else Map (unicodeToLower t) s

/-- The words `strings.FieldsFunc` has closed so far plus the one still open. -/
def closeField (cur : Option Str) : List Str :=
  match cur with
  | some w => [w]
  | none => []

/-- The loop of `strings.FieldsFunc`: `cur` is the field being read (`none`
between fields), the counter the bytes of the current rune still to skip. -/
def fieldsFrom (f : Nat → Bool) : Nat → Option Str → Str → List Str
  | _, cur, [] => closeField cur
  | k + 1, cur, b :: rest => fieldsFrom f k (cur.map (fun w => w ++ [b])) rest
  | 0, cur, b :: rest =>
    if f (decodeRune (b :: rest)).1 then
      closeField cur ++ fieldsFrom f ((decodeRune (b :: rest)).2 - 1) none rest
    else
      fieldsFrom f ((decodeRune (b :: rest)).2 - 1) (some (cur.getD [] ++ [b])) rest

/-- Go `strings.FieldsFunc`: the maximal runs of runes that do not satisfy
`f`. -/
def FieldsFunc (s : Str) (f : Nat → Bool) : List Str := fieldsFrom f 0 none s

/-- The ASCII white space of `strings.TrimSpace` (`asciiSpace`). -/
def asciiSpace (c : Nat) : Bool :=
  c == 0x09 || c == 0x0A || c == 0x0B || c == 0x0C || c == 0x0D || c == 0x20

/-- Go `unicode.IsSpace`. -/
def IsSpace (r : Nat) : Bool :=
  if r ≤ 0xFF then
    asciiSpace r || r == 0x85 || r == 0xA0
  else
    r == 0x1680 || (decide (0x2000 ≤ r) && decide (r ≤ 0x200A)) || r == 0x2028 || r == 0x2029
      || r == 0x202F || r == 0x205F || r == 0x3000

/-- Go `strings.TrimLeftFunc`: drops the leading runes that satisfy `f`. -/
def trimLeftFrom (f : Nat → Bool) : Nat → Str → Str
  | _, [] => []
  | k + 1, _ :: rest => trimLeftFrom f k rest
  | 0, b :: rest =>
    if f (decodeRune (b :: rest)).1 then
      trimLeftFrom f ((decodeRune (b :: rest)).2 - 1) rest
    else b :: rest

/-- Go `strings.TrimLeftFunc`. -/
def TrimLeftFunc (s : Str) (f : Nat → Bool) : Str := trimLeftFrom f 0 s

/-- The loop of `strings.lastIndexFunc(s, f, false)`: the byte index of the
last rune that does not satisfy `f`, looking at `s[0:i]`. -/
def lastIndexNot (f : Nat → Bool) (s : Str) : Nat → Nat → Option Nat
  | 0, _ => none
  | fuel + 1, i =>
    if i = 0 then none
    else
      let res := decodeLastRune (s.take i)
      if f res.1 then lastIndexNot f s fuel (i - res.2) else some (i - res.2)

/-- Go `strings.TrimRightFunc`. -/
def TrimRightFunc (s : Str) (f : Nat → Bool) : Str :=
  match lastIndexNot f s s.length s.length with
  | some i =>
    if RuneSelf ≤ s.getD i 0 then s.take (i + (decodeRune (s.drop i)).2) else s.take (i + 1)
  | none => []

/-- Go `strings.TrimFunc`. -/
def TrimFunc (s : Str) (f : Nat → Bool) : Str := TrimRightFunc (TrimLeftFunc s f) f

/-- Second loop of `strings.TrimSpace`, read on the reversed string: drops
trailing ASCII white space, and hands over to `TrimRightFunc` at the first
non-ASCII byte. -/
def trimSpaceEnd : Str → Str
  | [] => []
  | c :: rev =>
    if RuneSelf ≤ c then TrimRightFunc (c :: rev).reverse IsSpace
    else if asciiSpace c then trimSpaceEnd rev
    else (c :: rev).reverse

/-- First loop of `strings.TrimSpace`: drops leading ASCII white space, and
hands over to `TrimFunc` at the first non-ASCII byte. -/
def trimSpaceStart : Str → Str
  | [] => []
  | c :: rest =>
    if RuneSelf ≤ c then TrimFunc (c :: rest) IsSpace
    else if asciiSpace c then trimSpaceStart rest
    else trimSpaceEnd (c :: rest).reverse

/-- Go `strings.TrimSpace`. -/
def TrimSpace (s : Str) : Str := trimSpaceStart s

/-! ## Package `path/filepath` (Unix) -/

/-- The path separator `/`. -/
def Separator : Nat := 0x2F

/-- Go `filepath.Base`: the last element of a path, `.` for the empty path and
`/` for a path of slashes only. -/
def filepathBase (path : Str) : Str :=
  if path = [] then lit "."
  else
    let stripped := (path.reverse.dropWhile (fun c => c == Separator)).reverse
    let last := (stripped.reverse.takeWhile (fun c => c != Separator)).reverse
    if last = [] then [Separator] else last

/-- Go `filepath.Dir` on the clean, slash-separated relative paths that the
walk of an embedded file system yields: what precedes the last slash, and `.`
when there is no slash. -/
def filepathDir (path : Str) : Str :=
  let dir := (path.reverse.dropWhile (fun c => c != Separator)).reverse
  let dir := (dir.reverse.dropWhile (fun c => c == Separator)).reverse
  if dir = [] then (if HasPrefix path [Separator] then [Separator] else lit ".") else dir

/-! ## `main.go`: data and pure helpers -/

/-- The values substituted for the placeholders (`type TemplateData`). -/
structure TemplateData where
  ProjectName : Str
  ModuleName : Str
  AppTitle : Str
  AppTitleCamel : Str
deriving DecidableEq, Repr

/-- Library code the program is linked with and that is not part of it: the
Unicode case tables and the English title caser of `golang.org/x/text/cases`
(`cases.Title(language.English).String`). -/
structure Libs where
  cases : CaseTables
  title : Str → Str

/-- The separator test that `toCamelCase` hands to `strings.FieldsFunc`:
`c == '-' || c == '_' || c == ' '`. -/
def isNameSeparator (c : Nat) : Bool := c == 0x2D || c == 0x5F || c == 0x20

/-- One round of the loop of `toCamelCase`: for a word of positive length,
`strings.ToUpper(string(word[0])) + strings.ToLower(word[1:])`, where
`word[0]` is the first byte of the word and `string(word[0])` the encoding of
the rune that has this byte as its value. -/
def camelWord (t : CaseTables) (word : Str) : Str :=
  match word with
  | [] => []
  | b :: rest => ToUpper t (encodeRune b) ++ ToLower t rest

/-- The function `toCamelCase` of `main.go`. -/
def toCamelCase (t : CaseTables) (s : Str) : Str :=
  (FieldsFunc s isNameSeparator).foldl (fun result word => result ++ camelWord t word) []

/-- The record built under `// Prepare template data` in `runWebapp`. -/
def prepareTemplateData (lib : Libs) (projectName : Str) : TemplateData :=
  { ProjectName := projectName
    ModuleName := projectName
    AppTitle := lib.title (ReplaceAll projectName (lit "-") (lit " "))
    AppTitleCamel := toCamelCase lib.cases projectName }

/-- The function `processAllFiles` of `main.go`; its error result is always
`nil`, so the model returns the content alone. -/
def processAllFiles (content : Str) (data : TemplateData) : Str :=
  let content := ReplaceAll content (lit "{{projectName}}") data.ProjectName
  let content := ReplaceAll content (lit "{{moduleName}}") data.ModuleName
  let content := ReplaceAll content (lit "{{appTitle}}") data.AppTitle
  let content := ReplaceAll content (lit "{{appTitleCamel}}") data.AppTitleCamel
  content

/-- The output path that `generateWebappFiles` derives from a relative path
(under `// Determine output path`). -/
def outputPathOf (relPath : Str) : Str :=
  if HasSuffix relPath (lit ".tmpl") then TrimSuffix relPath (lit ".tmpl") else relPath

/-- Go `filepath.Rel(base, target)` for a target at or below `base`, which is
all that `fs.WalkDir` passes to its callback; `none` stands for the targets
outside of `base`, which the walk never produces. -/
def filepathRel (base target : Str) : Option Str :=
  if target = base then some (lit ".")
  else if HasPrefix target (base ++ [Separator]) then some (target.drop (base.length + 1))
  else none

/-! ## `main.go`: the workflow over an explicit state

The process state the program touches is its working directory; every call
that reaches the file system or starts a child process is recorded in a log.
What the operating system answers to each call is an input of the run
(`Env`). -/

/-- The helper functions of `main.go` that `runWebapp` calls, one per step of
the workflow. -/
inductive Step where
  | generateWebappFiles
  | renameEnvExample
  | executeGoModInit
  | installGoDependencies
  | installNodeDependencies
deriving DecidableEq, Repr

/-- One observable action of a run. -/
inductive Event where
  /-- A helper function of `main.go` is entered. -/
  | enter (step : Step)
  /-- Call of `os.Getwd()`. -/
  | getwd
  /-- Call of `os.Stat(path)`. -/
  | stat (path : Str)
  /-- Call of `os.MkdirAll(path, 0755)`. -/
  | mkdirAll (path : Str)
  /-- Call of `os.Chdir(dir)`. -/
  | chdir (dir : Str)
  /-- Call of `templateFiles.ReadFile(path)`. -/
  | readFile (path : Str)
  /-- Call of `os.WriteFile(path, content, 0644)`. -/
  | writeFile (path content : Str)
  /-- Call of `os.Rename(from, to)`. -/
  | rename (src dst : Str)
  /-- Call of `exec.LookPath(file)`. -/
  | lookPath (file : Str)
  /-- A child process is run to completion (`cmd.Run()`). -/
  | run (argv : List Str)
deriving DecidableEq, Repr

/-- The errors `generateWebappFiles` returns. -/
inductive GenErr where
  /-- The error that `fs.WalkDir` hands to the callback for `path`. -/
  | walk (path : Str)
  /-- `failed to get relative path`. -/
  | relPath (path : Str)
  /-- `failed to create output directory`. -/
  | createDir (outputDir : Str)
  /-- `failed to read template`. -/
  | readTemplate (path : Str)
  /-- `failed to write file`. -/
  | writeFile (outputPath : Str)
deriving DecidableEq, Repr

/-- The errors `runWebapp` returns. -/
inductive Err where
  /-- `failed to get current directory`. -/
  | getwd
  /-- `project name cannot be empty`. -/
  | emptyName
  /-- `failed to create project directory`. -/
  | createProjectDir
  /-- `failed to change to project directory`. -/
  | chdirProject
  /-- `failed to generate files`. -/
  | generateFiles (cause : GenErr)
  /-- `failed to initialize go module`. -/
  | goModInit
  /-- `failed to install Go dependencies`. -/
  | goDependencies
  /-- `failed to install Node.js dependencies`. -/
  | nodeDependencies
deriving DecidableEq, Repr

/-- One entry of the walk of the embedded tree `templates`, as `fs.WalkDir`
passes it to the callback. -/
structure TemplateEntry where
  /-- The path of the entry, `templates` or below it. -/
  path : Str
  /-- Whether `d.IsDir()` holds. -/
  isDir : Bool
  /-- Whether `fs.WalkDir` reports an error for the entry. -/
  walkFails : Bool
  /-- What `templateFiles.ReadFile(path)` returns, `none` for an error. -/
  content : Option Str
deriving DecidableEq, Repr

/-- What the surroundings of the process answer during one run. -/
structure Env where
  /-- The walk of the embedded template tree, in order. -/
  templates : List TemplateEntry
  /-- Whether `os.Getwd()` succeeds. -/
  getwdOk : Bool
  /-- Whether `os.Stat(projectName)` fails with a not-exist error. -/
  projectDirMissing : Bool
  /-- Whether `os.MkdirAll(projectName, 0755)` succeeds. -/
  mkdirProjectOk : Bool
  /-- Whether `os.Chdir(projectName)` succeeds. -/
  chdirProjectOk : Bool
  /-- Whether `os.Chdir(originalDir)` succeeds. -/
  chdirBackOk : Bool
  /-- Whether `os.MkdirAll(outputDir, 0755)` succeeds. -/
  mkdirAllOk : Str → Bool
  /-- Whether `os.WriteFile(outputPath, content, 0644)` succeeds. -/
  writeFileOk : Str → Bool
  /-- Whether `os.Stat(".env.example")` fails with a not-exist error. -/
  envExampleMissing : Bool
  /-- Whether `os.Rename(".env.example", ".env")` succeeds. -/
  renameOk : Bool
  /-- Whether `os.Stat("go.mod")` fails with a not-exist error. -/
  goModMissing : Bool
  /-- Whether `go mod init` exits with status 0. -/
  goModInitOk : Bool
  /-- Whether `go mod tidy` exits with status 0. -/
  goModTidyOk : Bool
  /-- Whether `exec.LookPath("pnpm")` finds the tool. -/
  pnpmFound : Bool
  /-- Whether the Node install command exits with status 0. -/
  nodeInstallOk : Bool

/-- The process state: the working directory, a rooted path, and the log of
the actions so far. -/
structure World where
  cwd : Str
  log : List Event
deriving DecidableEq, Repr

/-- Records an action. -/
def World.emit (w : World) (e : Event) : World := { w with log := w.log ++ [e] }

/-- Go `os.Chdir(dir)`: when the call succeeds, the working directory becomes
`dir`, read from the current one unless it is rooted.  The empty path names no
directory. -/
def World.chdir (w : World) (ok : Bool) (dir : Str) : World × Bool :=
  if ok && decide (dir ≠ []) then
    ({ cwd := if HasPrefix dir [Separator] then dir else w.cwd ++ [Separator] ++ dir
       log := w.log ++ [Event.chdir dir] }, true)
  else (w.emit (Event.chdir dir), false)

/-- The callback of `fs.WalkDir` in `generateWebappFiles`, run over the
entries of the walk until one returns an error. -/
def walkTemplates (env : Env) (data : TemplateData) :
    List TemplateEntry → World → World × Option GenErr
  | [], w => (w, none)
  | e :: rest, w =>
    if e.walkFails then (w, some (GenErr.walk e.path))
    else if e.isDir then walkTemplates env data rest w
    else
      match filepathRel (lit "templates") e.path with
      | none => (w, some (GenErr.relPath e.path))
      | some relPath =>
        let outputPath := outputPathOf relPath
        let outputDir := filepathDir outputPath
        let w1 := if outputDir ≠ lit "." then w.emit (Event.mkdirAll outputDir) else w
        if outputDir ≠ lit "." ∧ env.mkdirAllOk outputDir = false then
          (w1, some (GenErr.createDir outputDir))
        else
          let w2 := w1.emit (Event.readFile e.path)
          match e.content with
          | none => (w2, some (GenErr.readTemplate e.path))
          | some content =>
            let processedContent := processAllFiles content data
            let w3 := w2.emit (Event.writeFile outputPath processedContent)
            if env.writeFileOk outputPath then walkTemplates env data rest w3
            else (w3, some (GenErr.writeFile outputPath))

/-- The function `generateWebappFiles` of `main.go`. -/
def generateWebappFiles (env : Env) (data : TemplateData) (w : World) :
    World × Option GenErr :=
  walkTemplates env data env.templates (w.emit (Event.enter Step.generateWebappFiles))

/-- The function `renameEnvExample` of `main.go`; `true` stands for the `nil`
error. -/
def renameEnvExample (env : Env) (w : World) : World × Bool :=
  let w1 := (w.emit (Event.enter Step.renameEnvExample)).emit (Event.stat (lit ".env.example"))
  if env.envExampleMissing then (w1, false)
  else (w1.emit (Event.rename (lit ".env.example") (lit ".env")), env.renameOk)

/-- The function `executeGoModInit` of `main.go`; `true` stands for the `nil`
error. -/
def executeGoModInit (env : Env) (projectName : Str) (w : World) : World × Bool :=
  (((w.emit (Event.enter Step.executeGoModInit)).emit
    (Event.run [lit "go", lit "mod", lit "init", projectName])), env.goModInitOk)

/-- The function `installGoDependencies` of `main.go`; `true` stands for the
`nil` error. -/
def installGoDependencies (env : Env) (w : World) : World × Bool :=
  (((w.emit (Event.enter Step.installGoDependencies)).emit
    (Event.run [lit "go", lit "mod", lit "tidy"])), env.goModTidyOk)

/-- The function `installNodeDependencies` of `main.go`; `true` stands for the
`nil` error. -/
def installNodeDependencies (env : Env) (w : World) : World × Bool :=
  let w1 := (w.emit (Event.enter Step.installNodeDependencies)).emit (Event.lookPath (lit "pnpm"))
  let argv := if env.pnpmFound then [lit "pnpm", lit "install"] else [lit "npm", lit "install"]
  (w1.emit (Event.run argv), env.nodeInstallOk)

/-- The statement `if createNewDir { os.Chdir(originalDir) }` of `runWebapp`;
the result of the call is dropped, as in the source. -/
def restoreDir (env : Env) (createNewDir : Bool) (originalDir : Str) (w : World) : World :=
  if createNewDir then (w.chdir env.chdirBackOk originalDir).1 else w

/-- The part of `runWebapp` from `// Prepare template data` on: the project
name is settled and the process is in the project directory. -/
def runSteps (env : Env) (lib : Libs) (projectName : Str) (createNewDir : Bool)
    (originalDir : Str) (w : World) : World × Option Err :=
  let templateData := prepareTemplateData lib projectName
  let g := generateWebappFiles env templateData w
  match g.2 with
  | some cause => (restoreDir env createNewDir originalDir g.1, some (Err.generateFiles cause))
  | none =>
    let r := renameEnvExample env g.1
    let s := (r.1.emit (Event.stat (lit "go.mod")))
    let m := if env.goModMissing then executeGoModInit env projectName s else (s, true)
    if m.2 = false then (restoreDir env createNewDir originalDir m.1, some Err.goModInit)
    else
      let d := installGoDependencies env m.1
      if d.2 = false then (restoreDir env createNewDir originalDir d.1, some Err.goDependencies)
      else
        let n := installNodeDependencies env d.1
        if n.2 = false then
          (restoreDir env createNewDir originalDir n.1, some Err.nodeDependencies)
        else (restoreDir env createNewDir originalDir n.1, none)

/-- The part of `runWebapp` from `// Validate project name` on. -/
def runNamed (env : Env) (lib : Libs) (projectName : Str) (createNewDir : Bool)
    (w : World) : World × Option Err :=
  if projectName = [] then (w, some Err.emptyName)
  else
    let projectName := TrimSpace projectName
    let w1 :=
      if createNewDir then
        if env.projectDirMissing then
          (w.emit (Event.stat projectName)).emit (Event.mkdirAll projectName)
        else w.emit (Event.stat projectName)
      else w
    if createNewDir ∧ env.projectDirMissing = true ∧ env.mkdirProjectOk = false then
      (w1, some Err.createProjectDir)
    else
      let w2 := w1.emit Event.getwd
      let originalDir := if env.getwdOk then w2.cwd else []
      let c := if createNewDir then w2.chdir env.chdirProjectOk projectName else (w2, true)
      if c.2 = false then (c.1, some Err.chdirProject)
      else runSteps env lib projectName createNewDir originalDir c.1

/-- The function `runWebapp` of `main.go`, started in the working directory
`cwd` with the positional arguments `args`: the final state and the error
returned (`none` for `nil`). -/
def runWebapp (env : Env) (lib : Libs) (args : List Str) (cwd : Str) : World × Option Err :=
  let w : World := { cwd := cwd, log := [] }
  match args with
  | arg :: _ => runNamed env lib arg true w
  | [] =>
    if env.getwdOk then runNamed env lib (filepathBase cwd) false (w.emit Event.getwd)
    else (w.emit Event.getwd, some Err.getwd)

/-! ## Templates in pieces -/

/-- The four placeholder tokens, in the order `processAllFiles` replaces
them. -/
def placeholder (i : Fin 4) : Str :=
  match i with
  | 0 => lit "{{projectName}}"
  | 1 => lit "{{moduleName}}"
  | 2 => lit "{{appTitle}}"
  | 3 => lit "{{appTitleCamel}}"

/-- The field of `TemplateData` that replaces the placeholder `i`. -/
def TemplateData.field (d : TemplateData) (i : Fin 4) : Str :=
  match i with
  | 0 => d.ProjectName
  | 1 => d.ModuleName
  | 2 => d.AppTitle
  | 3 => d.AppTitleCamel

/-- The four replacements of `processAllFiles`, applied in the given order. -/
def replaceInOrder (order : List (Fin 4)) (content : Str) (data : TemplateData) : Str :=
  order.foldl (fun c i => ReplaceAll c (placeholder i) (data.field i)) content

/-- A piece of a template: literal text or one placeholder token. -/
inductive Seg where
  | text (t : Str)
  | token (i : Fin 4)
deriving DecidableEq, Repr

/-- The bytes of a piece. -/
def Seg.bytes (s : Seg) : Str :=
  match s with
  | Seg.text t => t
  | Seg.token i => placeholder i

/-- The content of a template made of the given pieces. -/
def render (segs : List Seg) : Str := segs.flatMap Seg.bytes

/-- Whether every `{` of a string is followed, in the string, by a byte other
than `{`: the string has no `{{` and does not end with `{`. -/
def loneBraces : Str → Bool
  | [] => true
  | [b] => b != 0x7B
  | b :: c :: rest => (b != 0x7B || c != 0x7B) && loneBraces (c :: rest)

/-- Whether the literal text of a template opens no token: every `{` of a
piece of text is followed in that piece by a byte other than `{`.  Braces of
program text such as `func init() {` are allowed. -/
def textLoneBraces (segs : List Seg) : Bool :=
  segs.all (fun s => match s with
    | Seg.text t => loneBraces t
    | Seg.token _ => true)

/-- Puts the value `v` in the place of the placeholder `i`. -/
def Seg.fill (i : Fin 4) (v : Str) (s : Seg) : Seg :=
  match s with
  | Seg.text t => Seg.text t
  | Seg.token j => if j = i then Seg.text v else Seg.token j

/-- Puts every value of `d` in the place of its placeholder. -/
def Seg.resolve (d : TemplateData) (s : Seg) : Seg :=
  match s with
  | Seg.text t => Seg.text t
  | Seg.token j => Seg.text (d.field j)

/-- Whether two strings differ at a position that both have. -/
def clash (a b : Str) : Bool := (a.zip b).any (fun p => p.1 != p.2)

/-- One piece after the replacements listed in `order`. -/
def Seg.fillAll (d : TemplateData) (order : List (Fin 4)) (s : Seg) : Seg :=
  order.foldl (fun s i => Seg.fill i (d.field i) s) s


/-- The template data that `runWebapp` builds for the project name `ject`
with an English title caser. -/
def jectData : TemplateData :=
  { ProjectName := lit "ject", ModuleName := lit "ject"
    AppTitle := lit "Ject", AppTitleCamel := lit "Ject" }

/-- Template data one of whose values is itself a placeholder token. -/
def nestedData : TemplateData :=
  { ProjectName := lit "demo", ModuleName := lit "demo"
    AppTitle := lit "Demo", AppTitleCamel := lit "{{projectName}}" }

/-- The template data of the project `my-app`. -/
def myAppData : TemplateData :=
  { ProjectName := lit "my-app", ModuleName := lit "my-app"
    AppTitle := lit "My App", AppTitleCamel := lit "MyApp" }

/-- Literal text number 1 of the shipped template `templates/main.go`. -/
def shippedText1 : Str :=
  List.flatten [
    lit "package main\n",
    lit "\n",
    lit "import (\n",
    lit "\t\"log\"\n",
    lit "\t\"os\"\n",
    lit "\t\"strings\"\n",
    lit "\n",
    lit "\t\"github.com/Masterminds/sprig/v3\"\n",
    lit "\n",
    lit "\t\"github.com/gofiber/fiber/v2\"\n",
    lit "\t\"github.com/gofiber/fiber/v2/middleware/logger\"\n",
    lit "\t\"github.com/gofiber/template/html/v2\"\n",
    lit "\t\"github.com/joho/godotenv\"\n",
    lit "\n",
    lit "\t\""]

/-- Literal text number 2 of the shipped template `templates/main.go`. -/
def shippedText2 : Str :=
  List.flatten [
    lit "/internals/handlers\"\n",
    lit ")\n",
    lit "\n",
    lit "func init() \x7b\n",
    lit "\tlog.SetFlags(log.LstdFlags | log.Lshortfile)\n",
    lit "\tlog.SetPrefix(\""]

/-- Literal text number 3 of the shipped template `templates/main.go`. -/
def shippedText3 : Str :=
  List.flatten [
    lit ": \")\n",
    lit "\tlog.SetOutput(os.Stdout)\n",
    lit "\n",
    lit "\t// if ENV is set to dev use godotenv\n",
    lit "\tenv := os.Getenv(\"ENV\")\n",
    lit "\tenv = strings.ToLower(env)\n",
    lit "\tlog.Println(\"ENV: \", env)\n",
    lit "\tif strings.Contains(env, \"dev\") \x7b\n",
    lit "\t\tlog.Println(\"Loading .env file\")\n",
    lit "\t\terr := godotenv.Load()\n",
    lit "\t\tif err != nil \x7b\n",
    lit "\t\t\tlog.Fatalf(\"Error loading .env file: %v\", err)\n",
    lit "\t\t\x7d\n",
    lit "\t\x7d\n",
    lit "\x7d\n",
    lit "\n",
    lit "func main() \x7b\n",
    lit "\n",
    lit "\t// Initialize template engine\n",
    lit "\tengine := html.New(\"./views\", \".html\")\n",
    lit "\n",
    lit "\tengine.AddFuncMap(sprig.FuncMap())\n",
    lit "\n",
    lit "\tengine.Debug(true)\n",
    lit "\t// Create app\n",
    lit "\tapp := fiber.New(fiber.Config\x7b\n",
    lit "\t\tViews:       engine,\n",
    lit "\t\tViewsLayout: \"layouts/base\",\n",
    lit "\t\x7d)\n",
    lit "\n",
    lit "\t// add a middleware to log the request\n",
    lit "\tapp.Use(logger.New())\n",
    lit "\n",
    lit "\t// Static files\n",
    lit "\tapp.Static(\"/assets\", \"./assets/dist\")\n",
    lit "\n",
    lit "\t// Theme toggle route\n",
    lit "\tapp.Post(\"/theme/toggle\", handlers.ToggleTheme)\n",
    lit "\n",
    lit "\t// Auth routes (no middleware)\n",
    lit "\n",
    lit "\tapp.Get(\"/\", handlers.GetIndex)\n",
    lit "\n",
    lit "\t// Start server\n",
    lit "\tlog.Fatal(app.Listen(\":3000\"))\n",
    lit "\x7d"]

/-- The shipped template `templates/main.go` in pieces: its text holds the
token `{{projectName}}` twice and braces of Go code. -/
def shippedMainGo : List Seg :=
  [Seg.text shippedText1, Seg.token 0, Seg.text shippedText2, Seg.token 0, Seg.text shippedText3]

/-! ## Separators -/

/-- A string without `-`, `_` and space. -/
def NoSep (s : Str) : Prop := ∀ b ∈ s, isNameSeparator b = false

/-- The case tables give no rune above U+007F one of `-`, `_` and space as its
upper or lower case (as is the case for the tables of Unicode). -/
def CaseTables.keepsLetters (t : CaseTables) : Prop :=
  ∀ r, 0x7F < r → isNameSeparator (t.upper r) = false ∧ isNameSeparator (t.lower r) = false

/-! ## The specification's wording, for comparison -/

/-- The rendering of one word that the specification describes: the first
character of the word, that is its first rune, upper-cased, followed by the
rest of the word lower-cased. -/
def camelWordSpec (t : CaseTables) (word : Str) : Str :=
  ToUpper t (word.take (decodeRune word).2) ++ ToLower t (word.drop (decodeRune word).2)

/-- The camel casing that the specification describes: the words between
`-`, `_` and space, empty fragments skipped, each rendered by `camelWordSpec`
and concatenated. -/
def toCamelCaseSpec (t : CaseTables) (s : Str) : Str :=
  (FieldsFunc s isNameSeparator).flatMap (camelWordSpec t)

/-- The title that the specification describes: the title casing of the name
in which `-` and `_` are replaced by a space. -/
def appTitleSpec (lib : Libs) (projectName : Str) : Str :=
  lib.title (ReplaceAll (ReplaceAll projectName (lit "-") (lit " ")) (lit "_") (lit " "))

/-! ## Observations on a run and sample inputs -/

/-- The helper functions entered during a run, in order. -/
def stepsOf (log : List Event) : List Step :=
  log.filterMap (fun e => match e with
    | Event.enter s => some s
    | _ => none)

/-- The order in which `runWebapp` calls its helpers when no step fails:
`executeGoModInit` is called only when `go.mod` is missing. -/
def workflowOrder (env : Env) : List Step :=
  [Step.generateWebappFiles, Step.renameEnvExample]
    ++ (if env.goModMissing then [Step.executeGoModInit] else [])
    ++ [Step.installGoDependencies, Step.installNodeDependencies]

/-- The calls of `os.WriteFile` during a run, in order: path and content. -/
def writesOf (log : List Event) : List (Str × Str) :=
  log.filterMap (fun e => match e with
    | Event.writeFile path content => some (path, content)
    | _ => none)

/-- The project name that `runWebapp` determines under `// Determine project
name`: the first argument, or the base of the working directory when there is
no argument. -/
def requestedName (args : List Str) (cwd : Str) : Str :=
  match args with
  | arg :: _ => arg
  | [] => filepathBase cwd

/-- The error that `generateWebappFiles` returns for the template data `data`;
it does not depend on the state the function is started in. -/
def generationResult (env : Env) (data : TemplateData) : Option GenErr :=
  (generateWebappFiles env data { cwd := [], log := [] }).2

/-- What the callback of `generateWebappFiles` hands to `os.WriteFile` for one
entry of the walk, when it gets that far. -/
def plannedWrite (data : TemplateData) (e : TemplateEntry) : Option (Str × Str) :=
  if e.isDir then none
  else
    match filepathRel (lit "templates") e.path, e.content with
    | some relPath, some content => some (outputPathOf relPath, processAllFiles content data)
    | _, _ => none

/-- The relation between a relative path and its output path in the words of
the specification: one trailing `.tmpl` is removed when the path ends with
`.tmpl`, and the path is kept otherwise. -/
def StripsTmpl (relPath outputPath : Str) : Prop :=
  (∀ q, relPath = q ++ lit ".tmpl" → outputPath = q) ∧
    ((¬ ∃ q, relPath = q ++ lit ".tmpl") → outputPath = relPath)

/-- Template data for the project name `name` whose `AppTitleCamel` is the
empty string. -/
def emptyCamelData (lib : Libs) (name : Str) : TemplateData :=
  { ProjectName := name
    ModuleName := name
    AppTitle := lib.title (ReplaceAll name (lit "-") (lit " "))
    AppTitleCamel := [] }

/-- The order property of one run, `gen` being the result of the generation:
the steps entered are a prefix of the workflow order, each step is entered
exactly when the step before it was entered and did not fail, and the error
returned is the one of the step that failed. -/
def StepsInOrder (env : Env) (gen : Option GenErr) (r : World × Option Err) : Prop :=
  stepsOf r.1.log <+: workflowOrder env ∧
  (∀ cause, r.2 = some (Err.generateFiles cause) ↔
    (Step.generateWebappFiles ∈ stepsOf r.1.log ∧ gen = some cause)) ∧
  (Step.renameEnvExample ∈ stepsOf r.1.log ↔
    (Step.generateWebappFiles ∈ stepsOf r.1.log ∧ gen = none)) ∧
  (Step.executeGoModInit ∈ stepsOf r.1.log ↔
    (Step.renameEnvExample ∈ stepsOf r.1.log ∧ env.goModMissing = true)) ∧
  (Step.installGoDependencies ∈ stepsOf r.1.log ↔
    (Step.renameEnvExample ∈ stepsOf r.1.log ∧
      (env.goModMissing = true → env.goModInitOk = true))) ∧
  (Step.installNodeDependencies ∈ stepsOf r.1.log ↔
    (Step.installGoDependencies ∈ stepsOf r.1.log ∧ env.goModTidyOk = true)) ∧
  (r.2 = some Err.goModInit ↔
    (Step.executeGoModInit ∈ stepsOf r.1.log ∧ env.goModInitOk = false)) ∧
  (r.2 = some Err.goDependencies ↔
    (Step.installGoDependencies ∈ stepsOf r.1.log ∧ env.goModTidyOk = false)) ∧
  (r.2 = some Err.nodeDependencies ↔
    (Step.installNodeDependencies ∈ stepsOf r.1.log ∧ env.nodeInstallOk = false)) ∧
  (r.2 = none ↔
    (Step.installNodeDependencies ∈ stepsOf r.1.log ∧ env.nodeInstallOk = true))

/-- The errors `runWebapp` returns before it calls `generateWebappFiles`. -/
def Err.isEarly (e : Err) : Bool :=
  match e with
  | Err.getwd => true
  | Err.emptyName => true
  | Err.createProjectDir => true
  | Err.chdirProject => true
  | _ => false

/-- The working directory after `if createNewDir { os.Chdir(originalDir) }`,
started in `cwd`. -/
def restoredCwd (env : Env) (createNewDir : Bool) (originalDir cwd : Str) : Str :=
  if createNewDir = true ∧ env.chdirBackOk = true ∧ originalDir ≠ [] then
    (if HasPrefix originalDir [Separator] then originalDir else cwd ++ [Separator] ++ originalDir)
  else cwd

/-- Go's Unicode case tables on the Latin-1 supplement U+0080..U+00FF, where
they are written out here; other runes are left as they are, which is what Go
does for U+FFFD.  Used to evaluate the program on Latin-1 input. -/
def latin1Tables : CaseTables :=
  { upper := fun r =>
      if 0xE0 ≤ r ∧ r ≤ 0xFE ∧ r ≠ 0xF7 then r - 0x20
      else if r = 0xFF then 0x178 else if r = 0xB5 then 0x39C else r
    lower := fun r => if 0xC0 ≤ r ∧ r ≤ 0xDE ∧ r ≠ 0xD7 then r + 0x20 else r }

/-- Libraries for sample runs whose outcome does not depend on the title
caser: the text is handed back unchanged. -/
def plainLibs : Libs := { cases := latin1Tables, title := fun s => s }

/-- A small template tree: a literal file and a file with the `.tmpl`
suffix in a subdirectory. -/
def sampleTemplates : List TemplateEntry :=
  [ { path := lit "templates", isDir := true, walkFails := false, content := none },
    { path := lit "templates/main.go", isDir := false, walkFails := false,
      content := some (lit "log.SetPrefix(\"{{projectName}}: \")") },
    { path := lit "templates/views", isDir := true, walkFails := false, content := none },
    { path := lit "templates/views/index.html.tmpl", isDir := false, walkFails := false,
      content := some (lit "<title>{{appTitle}}</title><div id=\"{{appTitleCamel}}\">") } ]

/-- Surroundings in which every call succeeds. -/
def okEnv : Env :=
  { templates := sampleTemplates
    getwdOk := true, projectDirMissing := true, mkdirProjectOk := true
    chdirProjectOk := true, chdirBackOk := true
    mkdirAllOk := fun _ => true, writeFileOk := fun _ => true
    envExampleMissing := false, renameOk := true
    goModMissing := true, goModInitOk := true, goModTidyOk := true
    pnpmFound := true, nodeInstallOk := true }

/-- A template tree with the paths of the output-path scenarios. -/
def pathTemplates : List TemplateEntry :=
  [ { path := lit "templates", isDir := true, walkFails := false, content := none },
    { path := lit "templates/a/b/file.go.tmpl", isDir := false, walkFails := false,
      content := some (lit "package b") },
    { path := lit "templates/c/file.go", isDir := false, walkFails := false,
      content := some (lit "package c") },
    { path := lit "templates/x.tmpl.tmpl", isDir := false, walkFails := false,
      content := some (lit "x") } ]

/-- Surroundings in which every call succeeds, with the tree `pathTemplates`. -/
def pathEnv : Env := { okEnv with templates := pathTemplates }

/-- Surroundings in which `go mod init` fails. -/
def initFailEnv : Env := { okEnv with goModInitOk := false }

/-- Surroundings in which only the Node install fails. -/
def nodeFailEnv : Env := { okEnv with nodeInstallOk := false }

/-! ## Theorems -/

/-! ### The workflow: working directory and step order -/

@[simp] theorem emit_cwd (w : World) (e : Event) : (w.emit e).cwd = w.cwd := rfl
@[simp] theorem emit_log (w : World) (e : Event) : (w.emit e).log = w.log ++ [e] := rfl

@[simp] theorem stepsOf_nil : stepsOf [] = [] := rfl

@[simp] theorem stepsOf_append (a b : List Event) : stepsOf (a ++ b) = stepsOf a ++ stepsOf b := by
  simp [stepsOf, List.filterMap_append]

@[simp] theorem stepsOf_cons (e : Event) (l : List Event) :
    stepsOf (e :: l) = (match e with
      | Event.enter s => [s]
      | _ => []) ++ stepsOf l := by
  cases e <;> rfl

theorem walkTemplates_steps (env : Env) (data : TemplateData) (es : List TemplateEntry) :
    ∀ w : World, stepsOf (walkTemplates env data es w).1.log = stepsOf w.log := by
  induction es with
  | nil => intro w; rfl
  | cons e rest ih =>
    intro w
    simp only [walkTemplates]
    split
    · rfl
    · split
      · exact ih w
      · split
        · rfl
        · split
          · split <;> simp
          · split
            · split <;> simp
            · split
              · rw [ih]; split <;> simp
              · split <;> simp

theorem chdir_steps (w : World) (ok : Bool) (dir : Str) :
    stepsOf (w.chdir ok dir).1.log = stepsOf w.log := by
  unfold World.chdir
  split <;> simp

theorem restoreDir_steps (env : Env) (c : Bool) (o : Str) (w : World) :
    stepsOf (restoreDir env c o w).log = stepsOf w.log := by
  unfold restoreDir
  split
  · exact chdir_steps w _ _
  · rfl

@[simp] theorem writesOf_nil : writesOf [] = [] := rfl

@[simp] theorem writesOf_append (a b : List Event) :
    writesOf (a ++ b) = writesOf a ++ writesOf b := by
  simp [writesOf, List.filterMap_append]

@[simp] theorem writesOf_cons (e : Event) (l : List Event) :
    writesOf (e :: l) = (match e with
      | Event.writeFile path content => [(path, content)]
      | _ => []) ++ writesOf l := by
  cases e <;> rfl

theorem mem_writesOf (log : List Event) (path content : Str) :
    (path, content) ∈ writesOf log ↔ Event.writeFile path content ∈ log := by
  induction log with
  | nil => simp
  | cons e l ih =>
    rw [writesOf_cons, List.mem_append, ih, List.mem_cons]
    cases e <;> simp

theorem chdir_writes (w : World) (ok : Bool) (dir : Str) :
    writesOf (w.chdir ok dir).1.log = writesOf w.log := by
  unfold World.chdir
  split <;> simp

theorem restoreDir_writes (env : Env) (c : Bool) (o : Str) (w : World) :
    writesOf (restoreDir env c o w).log = writesOf w.log := by
  unfold restoreDir
  split
  · exact chdir_writes w _ _
  · rfl

/-- The result of the walk does not depend on the state it starts in. -/
theorem walkTemplates_result (env : Env) (data : TemplateData) (es : List TemplateEntry) :
    ∀ w w' : World, (walkTemplates env data es w).2 = (walkTemplates env data es w').2 := by
  induction es with
  | nil => intro w w'; rfl
  | cons e rest ih =>
    intro w w'
    simp only [walkTemplates]
    split
    · rfl
    · split
      · exact ih w w'
      · split
        · rfl
        · split
          · rfl
          · split
            · rfl
            · split
              · exact ih _ _
              · rfl

theorem generate_result (env : Env) (data : TemplateData) (w : World) :
    (generateWebappFiles env data w).2 = generationResult env data :=
  walkTemplates_result env data env.templates _ _

theorem generate_steps (env : Env) (data : TemplateData) (w : World) :
    stepsOf (generateWebappFiles env data w).1.log
      = stepsOf w.log ++ [Step.generateWebappFiles] := by
  simp [generateWebappFiles, walkTemplates_steps]

theorem stepsInOrder_early (env : Env) (gen : Option GenErr) (w : World) (e : Err)
    (h : stepsOf w.log = []) (he : e.isEarly = true) : StepsInOrder env gen (w, some e) := by
  unfold StepsInOrder
  simp only [h]
  cases e <;> simp [Err.isEarly] at he ⊢

/-- The steps and the error of the part of `runWebapp` that starts with the
generation, read off the answers of the surroundings. -/
theorem runSteps_inOrder (env : Env) (lib : Libs) (pn : Str) (c : Bool) (o : Str) (w : World)
    (hw : stepsOf w.log = []) :
    StepsInOrder env (generationResult env (prepareTemplateData lib pn))
      (runSteps env lib pn c o w) := by
  have hg := generate_result env (prepareTemplateData lib pn) w
  have hs := generate_steps env (prepareTemplateData lib pn) w
  rw [hw, List.nil_append] at hs
  unfold runSteps StepsInOrder
  simp only [hg]
  cases hgen : generationResult env (prepareTemplateData lib pn) with
  | some cause =>
    simp [restoreDir_steps, hs, workflowOrder]
  | none =>
    simp only [renameEnvExample, executeGoModInit, installGoDependencies,
      installNodeDependencies]
    cases h1 : env.envExampleMissing <;> cases h2 : env.goModMissing <;>
      cases h3 : env.goModInitOk <;> cases h4 : env.goModTidyOk <;>
      cases h5 : env.nodeInstallOk <;>
      simp [restoreDir_steps, hs, workflowOrder, h2]

theorem afterChdir_cases (P : World × Option Err → Prop) (env : Env) (lib : Libs)
    (pn : Str) (b : Bool) (o : Str) (c : World × Bool)
    (hearly : ∀ e : Err, e.isEarly = true → P (c.1, some e))
    (hsteps : ∀ o : Str, P (runSteps env lib pn b o c.1)) :
    P (if c.2 = false then (c.1, some Err.chdirProject) else runSteps env lib pn b o c.1) := by
  split
  · exact hearly _ rfl
  · exact hsteps o

/-- A property holds of every result of `runNamed` when it holds of the
returns before the generation and of the part that starts with the
generation, from any state with the same steps and writes. -/
theorem runNamed_cases (P : World × Option Err → Prop) (env : Env) (lib : Libs)
    (name : Str) (c : Bool) (w : World)
    (hearly : ∀ (w' : World) (e : Err), stepsOf w'.log = stepsOf w.log →
      writesOf w'.log = writesOf w.log → e.isEarly = true → P (w', some e))
    (hsteps : name ≠ [] → ∀ (w' : World) (o : Str), stepsOf w'.log = stepsOf w.log →
      writesOf w'.log = writesOf w.log → P (runSteps env lib (TrimSpace name) c o w')) :
    P (runNamed env lib name c w) := by
  unfold runNamed
  by_cases hn : name = []
  · rw [if_pos hn]
    exact hearly _ Err.emptyName rfl rfl rfl
  · rw [if_neg hn]
    cases c
    · simp only [Bool.false_eq_true, false_and, if_false]
      exact hsteps hn _ _ (by simp) (by simp)
    · cases hm : env.projectDirMissing <;> cases hk : env.mkdirProjectOk <;>
        simp only [if_true, true_and, Bool.false_eq_true, false_and, and_self, if_false,
          and_false, and_true] <;>
        first
          | exact afterChdir_cases P env lib _ _ _ _
              (fun e he => hearly _ e (by simp [chdir_steps]) (by simp [chdir_writes]) he)
              (fun o => hsteps hn _ o (by simp [chdir_steps]) (by simp [chdir_writes]))
          | exact hearly _ Err.createProjectDir (by simp) (by simp) rfl

/-- A property holds of every result of `runWebapp` when it holds of the
returns before the generation and of the part that starts with the
generation, run for the trimmed project name from any state without steps and
writes. -/
theorem runWebapp_cases (P : World × Option Err → Prop) (env : Env) (lib : Libs)
    (args : List Str) (cwd : Str)
    (hearly : ∀ (w' : World) (e : Err), stepsOf w'.log = [] → writesOf w'.log = [] →
      e.isEarly = true → P (w', some e))
    (hsteps : requestedName args cwd ≠ [] → ∀ (w' : World) (c : Bool) (o : Str),
      stepsOf w'.log = [] → writesOf w'.log = [] →
      P (runSteps env lib (TrimSpace (requestedName args cwd)) c o w')) :
    P (runWebapp env lib args cwd) := by
  unfold runWebapp
  cases args with
  | nil =>
    simp only
    split
    · apply runNamed_cases
      · intro w' e h1 h2 he
        exact hearly w' e (by simpa using h1) (by simpa using h2) he
      · intro hn w' o h1 h2
        exact hsteps hn w' false o (by simpa using h1) (by simpa using h2)
    · exact hearly _ Err.getwd (by simp) (by simp) rfl
  | cons arg rest =>
    apply runNamed_cases
    · intro w' e h1 h2 he
      exact hearly w' e (by simpa using h1) (by simpa using h2) he
    · intro hn w' o h1 h2
      exact hsteps hn w' true o (by simpa using h1) (by simpa using h2)

/-- C10 (amended): in every run of `runWebapp` the helpers are entered in the
order `generateWebappFiles`, `renameEnvExample`, `executeGoModInit` (only when
`go.mod` is missing), `installGoDependencies`, `installNodeDependencies`: the
steps entered are a prefix of that sequence.  Each step is entered exactly
when the step before it was entered and succeeded: the rename exactly when the
generation was entered and returned no error, `executeGoModInit` and
`installGoDependencies` after the rename (whose own failure is not fatal), the
second only when `go mod init` was skipped or succeeded,
`installNodeDependencies` exactly when `go mod tidy` was run and succeeded;
and the error returned is the one of the step that failed, `nil` exactly when
the Node install was run and succeeded. -/
theorem runWebapp_step_order (env : Env) (lib : Libs) (args : List Str) (cwd : Str) :
    stepsOf (runWebapp env lib args cwd).1.log <+: workflowOrder env ∧
    (∀ cause, (runWebapp env lib args cwd).2 = some (Err.generateFiles cause) ↔
      (Step.generateWebappFiles ∈ stepsOf (runWebapp env lib args cwd).1.log ∧
        generationResult env (prepareTemplateData lib (TrimSpace (requestedName args cwd)))
          = some cause)) ∧
    (Step.renameEnvExample ∈ stepsOf (runWebapp env lib args cwd).1.log ↔
      (Step.generateWebappFiles ∈ stepsOf (runWebapp env lib args cwd).1.log ∧
        generationResult env (prepareTemplateData lib (TrimSpace (requestedName args cwd)))
          = none)) ∧
    (Step.executeGoModInit ∈ stepsOf (runWebapp env lib args cwd).1.log ↔
      (Step.renameEnvExample ∈ stepsOf (runWebapp env lib args cwd).1.log ∧
        env.goModMissing = true)) ∧
    (Step.installGoDependencies ∈ stepsOf (runWebapp env lib args cwd).1.log ↔
      (Step.renameEnvExample ∈ stepsOf (runWebapp env lib args cwd).1.log ∧
        (env.goModMissing = true → env.goModInitOk = true))) ∧
    (Step.installNodeDependencies ∈ stepsOf (runWebapp env lib args cwd).1.log ↔
      (Step.installGoDependencies ∈ stepsOf (runWebapp env lib args cwd).1.log ∧
        env.goModTidyOk = true)) ∧
    ((runWebapp env lib args cwd).2 = some Err.goModInit ↔
      (Step.executeGoModInit ∈ stepsOf (runWebapp env lib args cwd).1.log ∧
        env.goModInitOk = false)) ∧
    ((runWebapp env lib args cwd).2 = some Err.goDependencies ↔
      (Step.installGoDependencies ∈ stepsOf (runWebapp env lib args cwd).1.log ∧
        env.goModTidyOk = false)) ∧
    ((runWebapp env lib args cwd).2 = some Err.nodeDependencies ↔
      (Step.installNodeDependencies ∈ stepsOf (runWebapp env lib args cwd).1.log ∧
        env.nodeInstallOk = false)) ∧
    ((runWebapp env lib args cwd).2 = none ↔
      (Step.installNodeDependencies ∈ stepsOf (runWebapp env lib args cwd).1.log ∧
        env.nodeInstallOk = true)) := by
  have key : StepsInOrder env
      (generationResult env (prepareTemplateData lib (TrimSpace (requestedName args cwd))))
      (runWebapp env lib args cwd) := by
    apply runWebapp_cases
    · intro w' e h1 _ he
      exact stepsInOrder_early env _ w' e h1 he
    · intro _ w' c o h1 _
      exact runSteps_inOrder env lib _ c o w' h1
  exact key

theorem runWebapp_step_order_witness :
    (runWebapp initFailEnv plainLibs [lit "my-app"] (lit "/work")).2 = some Err.goModInit ∧
    stepsOf (runWebapp initFailEnv plainLibs [lit "my-app"] (lit "/work")).1.log
      = [Step.generateWebappFiles, Step.renameEnvExample, Step.executeGoModInit] ∧
    Step.installGoDependencies
      ∉ stepsOf (runWebapp initFailEnv plainLibs [lit "my-app"] (lit "/work")).1.log :=
  ⟨by decide, by decide, fun h =>
    absurd
      (((runWebapp_step_order initFailEnv plainLibs [lit "my-app"] (lit "/work")).2.2.2.2.1.1
        h).2 rfl)
      (by decide)⟩

/-- C10 (as stated) fails: in a run whose Node install fails, the rename of
`.env.example` has been attempted, as the second step, although the Node
install never succeeded. -/
theorem rename_precedes_node_install :
    stepsOf (runWebapp nodeFailEnv plainLibs [lit "my-app"] (lit "/work")).1.log
      = [Step.generateWebappFiles, Step.renameEnvExample, Step.executeGoModInit,
         Step.installGoDependencies, Step.installNodeDependencies] ∧
    Event.rename (lit ".env.example") (lit ".env")
      ∈ (runWebapp nodeFailEnv plainLibs [lit "my-app"] (lit "/work")).1.log ∧
    (runWebapp nodeFailEnv plainLibs [lit "my-app"] (lit "/work")).2
      = some Err.nodeDependencies := by decide

theorem walkTemplates_cwd (env : Env) (data : TemplateData) (es : List TemplateEntry) :
    ∀ w : World, (walkTemplates env data es w).1.cwd = w.cwd := by
  induction es with
  | nil => intro w; rfl
  | cons e rest ih =>
    intro w
    simp only [walkTemplates]
    split
    · rfl
    · split
      · exact ih w
      · split
        · rfl
        · split
          · split <;> simp
          · split
            · split <;> simp
            · split
              · rw [ih]; split <;> simp
              · split <;> simp

theorem restoreDir_cwd (env : Env) (c : Bool) (o : Str) (w : World) :
    (restoreDir env c o w).cwd = restoredCwd env c o w.cwd := by
  unfold restoreDir restoredCwd World.chdir
  cases c <;> cases h : env.chdirBackOk <;> by_cases ho : o = [] <;> simp [ho]

theorem runSteps_cwd (env : Env) (lib : Libs) (pn : Str) (c : Bool) (o : Str) (w : World) :
    (runSteps env lib pn c o w).1.cwd = restoredCwd env c o w.cwd := by
  unfold runSteps
  simp only [generateWebappFiles, renameEnvExample, executeGoModInit, installGoDependencies,
    installNodeDependencies]
  split
  · simp [restoreDir_cwd, walkTemplates_cwd]
  · cases env.envExampleMissing <;> cases env.goModMissing <;> cases env.goModInitOk <;>
      cases env.goModTidyOk <;> cases env.nodeInstallOk <;>
      simp [restoreDir_cwd, walkTemplates_cwd]

/-- C3: in every run of `runWebapp` started in a rooted working directory, in
which `os.Getwd` succeeds and the change back to the original directory, when
it is made, succeeds, the working directory at the return is the one at the
call, whatever the other steps answer and whether an error is returned or
not. -/
theorem runWebapp_restores_cwd (env : Env) (lib : Libs) (args : List Str) (cwd : Str)
    (hgetwd : env.getwdOk = true) (hback : env.chdirBackOk = true)
    (hrooted : HasPrefix cwd [Separator] = true) :
    (runWebapp env lib args cwd).1.cwd = cwd := by
  have hne : cwd ≠ [] := by
    intro h; subst h; simp [HasPrefix] at hrooted
  unfold runWebapp
  cases args with
  | nil =>
    simp only [hgetwd, if_true]
    unfold runNamed
    split
    · rfl
    · simp [runSteps_cwd, restoredCwd]
  | cons arg rest =>
    simp only
    unfold runNamed
    split
    · rfl
    · simp only [if_true, true_and, hgetwd]
      split
      · cases env.projectDirMissing <;> simp
      · unfold World.chdir
        cases env.chdirProjectOk <;> by_cases hp : TrimSpace arg = [] <;>
          cases env.projectDirMissing <;>
          simp [hp, runSteps_cwd, restoredCwd, hback, hrooted, hne]

/-! ### Placeholder substitution -/

theorem hasPrefix_iff (s pre : Str) : HasPrefix s pre = true ↔ pre <+: s := by
  unfold HasPrefix
  simp only [Bool.and_eq_true, decide_eq_true_eq]
  constructor
  · rintro ⟨_, h⟩
    rw [← h]
    exact List.take_prefix _ _
  · rintro ⟨t, rfl⟩
    simp

theorem clash_not_prefix : ∀ (a b R : Str), clash a b = true → ¬ a <+: b ++ R
  | [], _, _, h => by simp [clash] at h
  | _ :: _, [], _, h => by simp [clash] at h
  | x :: a, y :: b, R, h => by
    intro hp
    rw [List.cons_append, List.cons_prefix_cons] at hp
    have h2 : clash a b = true := by
      simp only [clash, List.zip_cons_cons, List.any_cons, Bool.or_eq_true, bne_iff_ne] at h
      rcases h with h | h
      · exact absurd hp.1 h
      · simpa [clash] using h
    exact clash_not_prefix a b R h2 hp.2

theorem replaceFrom_drop (old new : Str) : ∀ (k : Nat) (s : Str),
    replaceFrom old new k s = replaceFrom old new 0 (s.drop k)
  | 0, s => by simp
  | k + 1, [] => by simp [replaceFrom]
  | k + 1, _ :: rest => by
    simp only [replaceFrom, List.drop_succ_cons]
    exact replaceFrom_drop old new k rest

theorem replaceFrom_match (old new R : Str) (h : old ≠ []) :
    replaceFrom old new 0 (old ++ R) = new ++ replaceFrom old new 0 R := by
  cases old with
  | nil => exact absurd rfl h
  | cons c rest =>
    have hp : HasPrefix (c :: (rest ++ R)) (c :: rest) = true :=
      (hasPrefix_iff _ _).2 ⟨R, rfl⟩
    rw [List.cons_append, replaceFrom, if_pos hp, replaceFrom_drop]
    simp

theorem replaceFrom_pass (old new : Str) : ∀ (xs R : Str),
    (∀ k, k < xs.length → ¬ old <+: xs.drop k ++ R) →
    replaceFrom old new 0 (xs ++ R) = xs ++ replaceFrom old new 0 R
  | [], R, _ => by simp
  | x :: xs, R, h => by
    have h0 : ¬ old <+: (x :: xs) ++ R := h 0 (by simp)
    have hp : ¬ HasPrefix (x :: (xs ++ R)) old = true := by
      intro hc
      exact h0 ((hasPrefix_iff _ _).1 hc)
    rw [List.cons_append, replaceFrom, if_neg hp, replaceFrom_pass old new xs R, List.cons_append]
    intro k hk
    have := h (k + 1) (by simpa using hk)
    simpa using this

theorem placeholder_clash : ∀ i j : Fin 4, i ≠ j → ∀ k, k < (placeholder j).length →
    clash (placeholder i) ((placeholder j).drop k) = true := by
  decide

theorem placeholder_opens (i : Fin 4) : ∃ rest, placeholder i = 0x7B :: 0x7B :: rest := by
  have h : ∀ j : Fin 4, (placeholder j).take 2 = [0x7B, 0x7B] := by decide
  have hi := h i
  rcases hp : placeholder i with _ | ⟨a, _ | ⟨b, rest⟩⟩
  · rw [hp] at hi; simp at hi
  · rw [hp] at hi; simp at hi
  · rw [hp] at hi
    simp only [List.take_succ_cons, List.take_zero, List.cons.injEq, and_true] at hi
    exact ⟨rest, by rw [hi.1, hi.2]⟩

theorem placeholder_ne_nil (i : Fin 4) : placeholder i ≠ [] := by
  revert i; decide

theorem loneBraces_tail (b : Nat) (t : Str) (h : loneBraces (b :: t) = true) :
    loneBraces t = true := by
  cases t with
  | nil => rfl
  | cons c rest =>
    simp only [loneBraces, Bool.and_eq_true] at h
    exact h.2

theorem loneBraces_drop : ∀ (k : Nat) (t : Str), loneBraces t = true →
    loneBraces (t.drop k) = true
  | 0, t, h => by simpa using h
  | k + 1, [], _ => by simp [loneBraces]
  | k + 1, b :: t, h => by
    rw [List.drop_succ_cons]
    exact loneBraces_drop k t (loneBraces_tail b t h)

theorem loneBraces_of_append : ∀ (l s : Str), loneBraces (l ++ s) = true →
    loneBraces s = true
  | [], s, h => by simpa using h
  | b :: l, s, h => loneBraces_of_append l s (loneBraces_tail b (l ++ s) h)

/-- After a `{` of a string with lone braces comes a byte other than `{`. -/
theorem loneBraces_open (t : Str) (h : loneBraces (0x7B :: t) = true) :
    ∃ c rest, t = c :: rest ∧ c ≠ 0x7B := by
  cases t with
  | nil => simp [loneBraces] at h
  | cons c rest =>
    simp only [loneBraces, Bool.and_eq_true, Bool.or_eq_true, bne_iff_ne] at h
    refine ⟨c, rest, rfl, ?_⟩
    rcases h.1 with h1 | h1
    · exact absurd rfl h1
    · exact h1

theorem loneBraces_append : ∀ (a b : Str), loneBraces a = true → loneBraces b = true →
    loneBraces (a ++ b) = true
  | [], b, _, hb => by simpa using hb
  | [x], b, ha, hb => by
    have hx : x ≠ 0x7B := by simpa [loneBraces] using ha
    cases b with
    | nil => simpa using ha
    | cons c rest =>
      simp only [List.singleton_append, loneBraces, Bool.and_eq_true, Bool.or_eq_true,
        bne_iff_ne]
      exact ⟨Or.inl hx, hb⟩
  | x :: y :: a, b, ha, hb => by
    simp only [loneBraces, Bool.and_eq_true] at ha
    have ih := loneBraces_append (y :: a) b ha.2 hb
    simp only [List.cons_append, loneBraces, Bool.and_eq_true] at ih ⊢
    exact ⟨ha.1, ih⟩

/-- A string with lone braces holds no placeholder token. -/
theorem loneBraces_no_placeholder (out : Str) (h : loneBraces out = true) (i : Fin 4) :
    ¬ placeholder i <:+: out := by
  rintro ⟨l, r, hout⟩
  obtain ⟨rest, hr⟩ := placeholder_opens i
  rw [hr] at hout
  have h2 : loneBraces (0x7B :: 0x7B :: (rest ++ r)) = true := by
    apply loneBraces_of_append l
    rw [← hout] at h
    simpa using h
  obtain ⟨c, rest2, h3, h4⟩ := loneBraces_open _ h2
  simp only [List.cons.injEq] at h3
  exact h4 h3.1.symm

theorem placeholder_ne_lone (i : Fin 4) (v : Str) (hv : loneBraces v = true) :
    placeholder i ≠ v := by
  intro he
  exact loneBraces_no_placeholder v hv i ⟨[], [], by simp [he]⟩

/-- No placeholder token starts inside a piece of text with lone braces,
whatever follows the piece. -/
theorem text_pass (i : Fin 4) (t R : Str) (ht : loneBraces t = true) :
    ∀ k, k < t.length → ¬ placeholder i <+: t.drop k ++ R := by
  intro k hk hp
  obtain ⟨rest, h⟩ := placeholder_opens i
  rw [h] at hp
  have hd : t.drop k = t[k] :: t.drop (k + 1) := by
    rw [List.drop_eq_getElem_cons hk]
  have hl := loneBraces_drop k t ht
  rw [hd] at hl hp
  rw [List.cons_append, List.cons_prefix_cons] at hp
  rw [← hp.1] at hl
  obtain ⟨c, rest2, h3, h4⟩ := loneBraces_open _ hl
  rw [h3, List.cons_append, List.cons_prefix_cons] at hp
  exact h4 hp.2.1.symm

theorem render_cons (s : Seg) (segs : List Seg) : render (s :: segs) = s.bytes ++ render segs := by
  simp [render]

theorem textLoneBraces_cons (s : Seg) (segs : List Seg)
    (h : textLoneBraces (s :: segs) = true) : textLoneBraces segs = true := by
  simp only [textLoneBraces, List.all_cons, Bool.and_eq_true] at h ⊢
  exact h.2

theorem replaceFrom_render (i : Fin 4) (v : Str) : ∀ segs : List Seg,
    textLoneBraces segs = true →
    replaceFrom (placeholder i) v 0 (render segs) = render (segs.map (Seg.fill i v))
  | [], _ => by simp [render, replaceFrom]
  | s :: segs, hw => by
    have ih := replaceFrom_render i v segs (textLoneBraces_cons s segs hw)
    rw [List.map_cons, render_cons, render_cons]
    cases s with
    | text t =>
      have ht : loneBraces t = true := by
        simp only [textLoneBraces, List.all_cons, Bool.and_eq_true] at hw
        exact hw.1
      rw [show (Seg.text t).bytes = t from rfl,
        replaceFrom_pass _ _ _ _ (text_pass i t _ ht), ih]
      rfl
    | token j =>
      by_cases hji : j = i
      · subst hji
        rw [show (Seg.token j).bytes = placeholder j from rfl,
          replaceFrom_match _ _ _ (placeholder_ne_nil j), ih]
        simp [Seg.fill, Seg.bytes]
      · rw [show (Seg.token j).bytes = placeholder j from rfl,
          replaceFrom_pass _ _ _ _
            (fun k hk => clash_not_prefix _ _ _
              (placeholder_clash i j (fun h => hji h.symm) k hk)), ih]
        simp [Seg.fill, Seg.bytes, hji]

theorem replaceAll_render (i : Fin 4) (v : Str) (segs : List Seg)
    (hw : textLoneBraces segs = true) (hv : loneBraces v = true) :
    ReplaceAll (render segs) (placeholder i) v = render (segs.map (Seg.fill i v)) := by
  unfold ReplaceAll
  rw [if_neg (placeholder_ne_lone i v hv), if_neg (placeholder_ne_nil i)]
  exact replaceFrom_render i v segs hw

theorem textLoneBraces_fill (i : Fin 4) (v : Str) : ∀ segs : List Seg,
    textLoneBraces segs = true → loneBraces v = true →
    textLoneBraces (segs.map (Seg.fill i v)) = true
  | [], _, _ => rfl
  | s :: segs, hw, hv => by
    have ih := textLoneBraces_fill i v segs (textLoneBraces_cons s segs hw) hv
    simp only [textLoneBraces, List.all_cons, Bool.and_eq_true, List.map_cons] at hw ih ⊢
    refine ⟨?_, ih⟩
    cases s with
    | text t => exact hw.1
    | token j =>
      by_cases hji : j = i
      · simpa [Seg.fill, hji] using hv
      · simp [Seg.fill, hji]

theorem fillAll_text (d : TemplateData) (t : Str) : ∀ order : List (Fin 4),
    Seg.fillAll d order (Seg.text t) = Seg.text t
  | [] => rfl
  | i :: order => by
    simp only [Seg.fillAll, List.foldl_cons, Seg.fill]
    exact fillAll_text d t order

theorem fillAll_token (d : TemplateData) (j : Fin 4) : ∀ order : List (Fin 4), j ∈ order →
    Seg.fillAll d order (Seg.token j) = Seg.text (d.field j)
  | [], h => by simp at h
  | i :: order, h => by
    simp only [Seg.fillAll, List.foldl_cons, Seg.fill]
    by_cases hji : j = i
    · subst hji
      simp only [if_true]
      exact fillAll_text d _ order
    · simp only [hji, if_false]
      have : j ∈ order := by
        rcases List.mem_cons.1 h with h | h
        · exact absurd h hji
        · exact h
      exact fillAll_token d j order this

theorem replaceInOrder_render (d : TemplateData) (hd : ∀ i, loneBraces (d.field i) = true) :
    ∀ (order : List (Fin 4)) (segs : List Seg), textLoneBraces segs = true →
    replaceInOrder order (render segs) d = render (segs.map (Seg.fillAll d order))
  | [], segs, _ => by
    have : (fun s : Seg => Seg.fillAll d [] s) = id := rfl
    simp [replaceInOrder, this]
  | i :: order, segs, hw => by
    have h1 := replaceAll_render i (d.field i) segs hw (hd i)
    have h2 := replaceInOrder_render d hd order _
      (textLoneBraces_fill i (d.field i) segs hw (hd i))
    simp only [replaceInOrder, List.foldl_cons] at h2 ⊢
    rw [h1, h2, List.map_map]
    rfl

/-- On a template whose text has lone braces and with values that have lone
braces, the replacements of an order that lists every token put each value in
the place of its token. -/
theorem replaceInOrder_full (d : TemplateData) (hd : ∀ i, loneBraces (d.field i) = true)
    (order : List (Fin 4)) (hall : ∀ j, j ∈ order) (segs : List Seg)
    (hw : textLoneBraces segs = true) :
    replaceInOrder order (render segs) d = render (segs.map (Seg.resolve d)) := by
  rw [replaceInOrder_render d hd order segs hw]
  congr 1
  apply List.map_congr_left
  intro s _
  cases s with
  | text t => exact fillAll_text d t order
  | token j => exact fillAll_token d j order (hall j)

theorem processAllFiles_eq_replaceInOrder (content : Str) (d : TemplateData) :
    processAllFiles content d = replaceInOrder [0, 1, 2, 3] content d := rfl

theorem loneBraces_resolved (d : TemplateData) (hd : ∀ i, loneBraces (d.field i) = true) :
    ∀ segs : List Seg, textLoneBraces segs = true →
    loneBraces (render (segs.map (Seg.resolve d))) = true
  | [], _ => rfl
  | s :: segs, hw => by
    have ih := loneBraces_resolved d hd segs (textLoneBraces_cons s segs hw)
    rw [List.map_cons, render_cons]
    apply loneBraces_append _ _ _ ih
    cases s with
    | text t =>
      simp only [textLoneBraces, List.all_cons, Bool.and_eq_true] at hw
      exact hw.1
    | token j => exact hd j

/-- C1 (amended): when no `{` of the literal text of the content is followed
by a second `{` or stands at the end of its piece of text (the content is a
sequence of such text, braces of program code included, and placeholder
tokens) and the same holds for the four values of the template data,
`processAllFiles` returns the content with every token replaced by its value,
and the result contains none of the four placeholder tokens. -/
theorem processAllFiles_resolves_tokens (segs : List Seg) (data : TemplateData)
    (hsegs : textLoneBraces segs = true) (hdata : ∀ i, loneBraces (data.field i) = true) :
    processAllFiles (render segs) data = render (segs.map (Seg.resolve data)) ∧
      ∀ i, Contains (processAllFiles (render segs) data) (placeholder i) = false := by
  have heq : processAllFiles (render segs) data = render (segs.map (Seg.resolve data)) := by
    rw [processAllFiles_eq_replaceInOrder]
    exact replaceInOrder_full data hdata _ (by decide) segs hsegs
  refine ⟨heq, fun i => ?_⟩
  rw [heq]
  simp only [Contains, decide_eq_false_iff_not]
  exact loneBraces_no_placeholder _ (loneBraces_resolved data hdata segs hsegs) i

set_option maxRecDepth 1000000 in
theorem processAllFiles_resolves_tokens_witness :
    textLoneBraces shippedMainGo = true ∧ (∀ i, loneBraces (myAppData.field i) = true) ∧
      Contains (render shippedMainGo) (lit "func init() \x7b") = true ∧
      processAllFiles (render shippedMainGo) myAppData
        = shippedText1 ++ lit "my-app" ++ shippedText2 ++ lit "my-app" ++ shippedText3 ∧
      ∀ i, Contains (processAllFiles (render shippedMainGo) myAppData) (placeholder i)
        = false :=
  ⟨by decide, by decide, by decide,
    (processAllFiles_resolves_tokens shippedMainGo myAppData (by decide) (by decide)).1.trans
      (by simp [shippedMainGo, render, Seg.resolve, Seg.bytes, TemplateData.field, myAppData]),
    (processAllFiles_resolves_tokens shippedMainGo myAppData (by decide) (by decide)).2⟩

/-- C1 (as stated) fails: a content that opens a token in its literal text,
`{{pro` before a token, leaves `{{projectName}}` in the output for the project
name `ject`, and so does a value that is itself a token. -/
theorem processAllFiles_leaves_placeholder :
    processAllFiles (lit "{{pro{{moduleName}}Name}}") jectData = lit "{{projectName}}" ∧
    Contains (processAllFiles (lit "{{pro{{moduleName}}Name}}") jectData)
      (lit "{{projectName}}") = true ∧
    Contains (processAllFiles (lit "{{appTitleCamel}}") nestedData)
      (lit "{{projectName}}") = true := by decide

/-- C9 (amended): when no `{` of the literal text of the content is followed
by a second `{` or stands at the end of its piece of text, and the same holds
for the four values of the template data, the four replacements applied in
any order that is a permutation of the four tokens give the result of
`processAllFiles`. -/
theorem replaceInOrder_eq_processAllFiles (order : List (Fin 4))
    (horder : order.Perm [0, 1, 2, 3]) (segs : List Seg) (data : TemplateData)
    (hsegs : textLoneBraces segs = true) (hdata : ∀ i, loneBraces (data.field i) = true) :
    replaceInOrder order (render segs) data = processAllFiles (render segs) data := by
  have hall : ∀ j : Fin 4, j ∈ order := by
    intro j
    exact horder.symm.subset (by revert j; decide)
  rw [processAllFiles_eq_replaceInOrder, replaceInOrder_full data hdata order hall segs hsegs,
    replaceInOrder_full data hdata _ (by decide) segs hsegs]

set_option maxRecDepth 1000000 in
theorem replaceInOrder_eq_processAllFiles_witness :
    List.Perm [3, 1, 0, 2] ([0, 1, 2, 3] : List (Fin 4)) ∧
      textLoneBraces shippedMainGo = true ∧
      (∀ i, loneBraces (myAppData.field i) = true) ∧
      replaceInOrder [3, 1, 0, 2] (render shippedMainGo) myAppData
        = processAllFiles (render shippedMainGo) myAppData :=
  ⟨by decide, by decide, by decide,
    replaceInOrder_eq_processAllFiles [3, 1, 0, 2] (by decide) shippedMainGo myAppData
      (by decide) (by decide)⟩

/-- C9 (as stated) fails: on a content that opens a token in its literal
text, replacing `{{moduleName}}` before `{{projectName}}` gives `ject` where
`processAllFiles` gives `{{projectName}}`. -/
theorem replaceInOrder_order_matters :
    List.Perm [1, 0, 2, 3] ([0, 1, 2, 3] : List (Fin 4)) ∧
    replaceInOrder [1, 0, 2, 3] (lit "{{pro{{moduleName}}Name}}") jectData = lit "ject" ∧
    processAllFiles (lit "{{pro{{moduleName}}Name}}") jectData = lit "{{projectName}}" ∧
    replaceInOrder [1, 0, 2, 3] (lit "{{pro{{moduleName}}Name}}") jectData
      ≠ processAllFiles (lit "{{pro{{moduleName}}Name}}") jectData := by decide

/-! ### Camel casing -/

theorem isNameSeparator_false_iff (c : Nat) :
    isNameSeparator c = false ↔ c ≠ 0x2D ∧ c ≠ 0x5F ∧ c ≠ 0x20 := by
  simp [isNameSeparator, not_or, and_assoc]

theorem not_sep_of_ge (c : Nat) (h : 0x80 ≤ c) : isNameSeparator c = false := by
  rw [isNameSeparator_false_iff]; omega

theorem decodeRune_ascii (b : Nat) (rest : Str) (h : b < 0x80) :
    decodeRune (b :: rest) = (b, 1) := by
  simp [decodeRune, h]

theorem decodeRune_rune_ge (b : Nat) (rest : Str) (h : 0x80 ≤ b) :
    0x80 ≤ (decodeRune (b :: rest)).1 := by
  rcases rest with _ | ⟨b1, _ | ⟨b2, _ | ⟨b3, rest⟩⟩⟩ <;>
    simp only [decodeRune, isCont, acceptLo, acceptHi, RuneError, decide_eq_true_eq] <;>
    split_ifs <;> simp only [] <;> omega

theorem decodeRune_tail_ge (b : Nat) (rest : Str) :
    ∀ c ∈ rest.take ((decodeRune (b :: rest)).2 - 1), 0x80 ≤ c := by
  rcases rest with _ | ⟨b1, _ | ⟨b2, _ | ⟨b3, rest⟩⟩⟩ <;>
    simp only [decodeRune, isCont, acceptLo, acceptHi, RuneError, decide_eq_true_eq] <;>
    split_ifs <;> simp <;> omega

theorem noSep_append (a b : Str) (ha : NoSep a) (hb : NoSep b) : NoSep (a ++ b) := by
  intro c hc
  rcases List.mem_append.1 hc with h | h
  · exact ha c h
  · exact hb c h

theorem noSep_nil : NoSep [] := by
  intro c hc; simp at hc

/-- The first byte of a rune that is no separator is no separator. -/
theorem first_byte_not_sep (b : Nat) (rest : Str)
    (h : isNameSeparator (decodeRune (b :: rest)).1 = false) : isNameSeparator b = false := by
  by_cases hb : b < 0x80
  · rw [decodeRune_ascii b rest hb] at h
    exact h
  · exact not_sep_of_ge b (by omega)

/-- Every field that `fieldsFrom` returns is free of separators, when the
field being read is and the bytes still to skip are not ASCII. -/
theorem fieldsFrom_noSep : ∀ (s : Str) (k : Nat) (cur : Option Str),
    (∀ c ∈ s.take k, 0x80 ≤ c) → (∀ w, cur = some w → NoSep w) →
    ∀ w ∈ fieldsFrom isNameSeparator k cur s, NoSep w
  | [], k, cur, _, hcur => by
    intro w hw
    cases cur with
    | none => simp [fieldsFrom, closeField] at hw
    | some u =>
      simp only [fieldsFrom, closeField, List.mem_singleton] at hw
      subst hw
      exact hcur _ rfl
  | b :: rest, k + 1, cur, hk, hcur => by
    rw [fieldsFrom]
    apply fieldsFrom_noSep rest k
    · intro c hc
      exact hk c (by simp [List.take_succ_cons, hc])
    · intro w hw
      cases cur with
      | none => simp at hw
      | some u =>
        simp only [Option.map_some', Option.some.injEq] at hw
        subst hw
        exact noSep_append _ _ (hcur _ rfl)
          (by intro c hc; simp at hc; subst hc; exact not_sep_of_ge _ (hk _ (by simp)))
  | b :: rest, 0, cur, _, hcur => by
    rw [fieldsFrom]
    split
    · intro w hw
      rcases List.mem_append.1 hw with h | h
      · cases cur with
        | none => simp [closeField] at h
        | some u =>
          simp only [closeField, List.mem_singleton] at h
          subst h
          exact hcur _ rfl
      · exact fieldsFrom_noSep rest _ none (decodeRune_tail_ge b rest) (by simp) w h
    · rename_i hsep
      apply fieldsFrom_noSep rest _ _ (decodeRune_tail_ge b rest)
      intro w hw
      simp only [Option.some.injEq] at hw
      subst hw
      apply noSep_append
      · cases cur with
        | none => exact noSep_nil
        | some u => exact hcur _ rfl
      · intro c hc
        simp at hc
        subst hc
        exact first_byte_not_sep c rest (by simpa using hsep)

theorem FieldsFunc_noSep (s : Str) : ∀ w ∈ FieldsFunc s isNameSeparator, NoSep w :=
  fieldsFrom_noSep s 0 none (by simp) (by simp)

/-- The runes of a string without separators are no separators. -/
theorem runesFrom_noSep : ∀ (s : Str) (k : Nat), NoSep s →
    ∀ r ∈ runesFrom k s, isNameSeparator r = false
  | [], k, _ => by simp [runesFrom]
  | b :: rest, k + 1, hs => by
    rw [runesFrom]
    exact runesFrom_noSep rest k (fun c hc => hs c (List.mem_cons_of_mem _ hc))
  | b :: rest, 0, hs => by
    rw [runesFrom]
    intro r hr
    rcases List.mem_cons.1 hr with h | h
    · subst h
      by_cases hb : b < 0x80
      · rw [decodeRune_ascii b rest hb]
        exact hs b (List.mem_cons_self _ _)
      · exact not_sep_of_ge _ (decodeRune_rune_ge b rest (by omega))
    · exact runesFrom_noSep rest _ (fun c hc => hs c (List.mem_cons_of_mem _ hc)) r h

theorem encodeRune_noSep (r : Nat) (h : isNameSeparator r = false) : NoSep (encodeRune r) := by
  unfold encodeRune
  intro c hc
  split_ifs at hc <;> simp at hc
  · subst hc; exact h
  all_goals (apply not_sep_of_ge; omega)

theorem Map_noSep (f : Nat → Nat) (s : Str) (hs : NoSep s)
    (hf : ∀ r, isNameSeparator r = false → isNameSeparator (f r) = false) : NoSep (Map f s) := by
  intro c hc
  simp only [Map, runes, List.mem_flatMap] at hc
  obtain ⟨r, hr, hcr⟩ := hc
  exact encodeRune_noSep (f r) (hf r (runesFrom_noSep s 0 hs r hr)) c hcr

theorem unicodeToUpper_noSep (t : CaseTables) (ht : t.keepsLetters) (r : Nat)
    (h : isNameSeparator r = false) : isNameSeparator (unicodeToUpper t r) = false := by
  unfold unicodeToUpper
  split_ifs with h1 h2
  · rw [isNameSeparator_false_iff]; omega
  · exact h
  · exact (ht r (by omega)).1

theorem unicodeToLower_noSep (t : CaseTables) (ht : t.keepsLetters) (r : Nat)
    (h : isNameSeparator r = false) : isNameSeparator (unicodeToLower t r) = false := by
  unfold unicodeToLower
  split_ifs with h1 h2
  · rw [isNameSeparator_false_iff]; omega
  · exact h
  · exact (ht r (by omega)).2

theorem ToUpper_noSep (t : CaseTables) (ht : t.keepsLetters) (s : Str) (hs : NoSep s) :
    NoSep (ToUpper t s) := by
  unfold ToUpper
  split
  · intro c hc
    simp only [List.mem_map] at hc
    obtain ⟨a, ha, rfl⟩ := hc
    have := (isNameSeparator_false_iff a).1 (hs a ha)
    split_ifs
    · rw [isNameSeparator_false_iff]; omega
    · exact hs a ha
  · exact Map_noSep _ s hs (unicodeToUpper_noSep t ht)

theorem ToLower_noSep (t : CaseTables) (ht : t.keepsLetters) (s : Str) (hs : NoSep s) :
    NoSep (ToLower t s) := by
  unfold ToLower
  split
  · intro c hc
    simp only [List.mem_map] at hc
    obtain ⟨a, ha, rfl⟩ := hc
    have := (isNameSeparator_false_iff a).1 (hs a ha)
    split_ifs
    · rw [isNameSeparator_false_iff]; omega
    · exact hs a ha
  · exact Map_noSep _ s hs (unicodeToLower_noSep t ht)

theorem camelWord_noSep (t : CaseTables) (ht : t.keepsLetters) (w : Str) (hw : NoSep w) :
    NoSep (camelWord t w) := by
  cases w with
  | nil => exact noSep_nil
  | cons b rest =>
    simp only [camelWord]
    apply noSep_append
    · exact ToUpper_noSep t ht _ (encodeRune_noSep b (hw b (List.mem_cons_self _ _)))
    · exact ToLower_noSep t ht _ (fun c hc => hw c (List.mem_cons_of_mem _ hc))

theorem foldl_camel_noSep (t : CaseTables) (ht : t.keepsLetters) :
    ∀ (ws : List Str) (acc : Str), NoSep acc → (∀ w ∈ ws, NoSep w) →
    NoSep (ws.foldl (fun result word => result ++ camelWord t word) acc)
  | [], acc, hacc, _ => hacc
  | w :: ws, acc, hacc, hws => by
    rw [List.foldl_cons]
    exact foldl_camel_noSep t ht ws _
      (noSep_append _ _ hacc (camelWord_noSep t ht w (hws w (List.mem_cons_self _ _))))
      (fun u hu => hws u (List.mem_cons_of_mem _ hu))

/-- C7: with case tables that give no rune above U+007F a separator as its
upper or lower case, `toCamelCase(name)` contains none of `-`, `_` and space,
for every name and so for every non-empty one. -/
theorem toCamelCase_no_separator (t : CaseTables) (ht : t.keepsLetters) (name : Str) :
    ∀ b ∈ toCamelCase t name, b ≠ 0x2D ∧ b ≠ 0x5F ∧ b ≠ 0x20 := by
  intro b hb
  have h : NoSep (toCamelCase t name) :=
    foldl_camel_noSep t ht _ [] noSep_nil (FieldsFunc_noSep name)
  exact (isNameSeparator_false_iff b).1 (h b hb)

theorem latin1Tables_keepsLetters : latin1Tables.keepsLetters := by
  intro r hr
  simp only [latin1Tables, isNameSeparator_false_iff]
  constructor <;> split_ifs <;> omega

theorem toCamelCase_no_separator_witness :
    latin1Tables.keepsLetters ∧
      toCamelCase latin1Tables (lit "my-app_é x") = lit "MyAppÃ�X" ∧
      ∀ b ∈ toCamelCase latin1Tables (lit "my-app_é x"), b ≠ 0x2D ∧ b ≠ 0x5F ∧ b ≠ 0x20 :=
  ⟨latin1Tables_keepsLetters, by decide,
    toCamelCase_no_separator latin1Tables latin1Tables_keepsLetters (lit "my-app_é x")⟩

/-! ### Output paths -/

theorem hasSuffix_iff (s suffix : Str) : HasSuffix s suffix = true ↔ suffix <:+ s := by
  unfold HasSuffix
  simp only [Bool.and_eq_true, decide_eq_true_eq]
  constructor
  · rintro ⟨_, h⟩
    rw [← h]
    exact List.drop_suffix _ _
  · rintro ⟨t, rfl⟩
    simp

/-- The helper `outputPathOf` removes one trailing `.tmpl` and no more, and
keeps a path that does not end with `.tmpl`. -/
theorem outputPathOf_stripsTmpl (p : Str) : StripsTmpl p (outputPathOf p) := by
  constructor
  · rintro q rfl
    have h : HasSuffix (q ++ lit ".tmpl") (lit ".tmpl") = true :=
      (hasSuffix_iff _ _).2 ⟨q, rfl⟩
    simp [outputPathOf, TrimSuffix, h]
  · intro hno
    have h : ¬ HasSuffix p (lit ".tmpl") = true := by
      intro hc
      obtain ⟨q, hq⟩ := (hasSuffix_iff _ _).1 hc
      exact hno ⟨q, hq.symm⟩
    simp [outputPathOf, h]

theorem plannedWrite_some (data : TemplateData) (e : TemplateEntry) (path content : Str)
    (h : plannedWrite data e = some (path, content)) :
    e.isDir = false ∧ ∃ p c, filepathRel (lit "templates") e.path = some p ∧
      e.content = some c ∧ path = outputPathOf p ∧ content = processAllFiles c data := by
  unfold plannedWrite at h
  split at h
  · exact absurd h (by simp)
  · rename_i hd
    split at h
    · rename_i p c hp hc
      simp only [Option.some.injEq, Prod.mk.injEq] at h
      exact ⟨by simpa using hd, p, c, hp, hc, h.1.symm, h.2.symm⟩
    · exact absurd h (by simp)

theorem writes_after_mkdir (w : World) (d : Str) (c : Prop) [Decidable c] :
    writesOf (if c then w.emit (Event.mkdirAll d) else w).log = writesOf w.log := by
  split <;> simp

theorem writes_before_mkdir (w : World) (d : Str) (c : Prop) [Decidable c] :
    writesOf (if c then w else w.emit (Event.mkdirAll d)).log = writesOf w.log := by
  split <;> simp

/-- The writes of the walk are the planned writes of its entries, in order,
up to the entry at which the walk stops; all of them when it returns no
error, and then every file entry has one. -/
theorem walkTemplates_writes (env : Env) (data : TemplateData) :
    ∀ (es : List TemplateEntry) (w : World),
    ∃ l, writesOf (walkTemplates env data es w).1.log = writesOf w.log ++ l ∧
      l <+: es.filterMap (plannedWrite data) ∧
      ((walkTemplates env data es w).2 = none →
        l = es.filterMap (plannedWrite data) ∧
        ∀ e ∈ es, e.isDir = false → (plannedWrite data e).isSome = true)
  | [], w => ⟨[], by simp [walkTemplates], by simp, by simp [walkTemplates]⟩
  | e :: rest, w => by
    simp only [walkTemplates]
    by_cases hf : e.walkFails = true
    · rw [if_pos hf]
      exact ⟨[], by simp, List.nil_prefix, by simp⟩
    rw [if_neg hf]
    by_cases hd : e.isDir = true
    · rw [if_pos hd]
      obtain ⟨l, h1, h2, h3⟩ := walkTemplates_writes env data rest w
      have hp : plannedWrite data e = none := by simp [plannedWrite, hd]
      refine ⟨l, h1, by simpa [List.filterMap_cons, hp] using h2, fun hok => ?_⟩
      obtain ⟨h4, h5⟩ := h3 hok
      refine ⟨by simpa [List.filterMap_cons, hp] using h4, ?_⟩
      intro e' he' hd'
      rcases List.mem_cons.1 he' with rfl | hm
      · rw [hd] at hd'; exact absurd hd' (by decide)
      · exact h5 e' hm hd'
    rw [if_neg hd]
    cases hrel : filepathRel (lit "templates") e.path with
    | none => exact ⟨[], by simp, List.nil_prefix, by simp⟩
    | some p =>
      simp only
      by_cases hmk : filepathDir (outputPathOf p) ≠ lit "." ∧
          env.mkdirAllOk (filepathDir (outputPathOf p)) = false
      · rw [if_pos hmk]
        exact ⟨[], by simp [writes_after_mkdir, writes_before_mkdir], List.nil_prefix, by simp⟩
      rw [if_neg hmk]
      cases hc : e.content with
      | none =>
        exact ⟨[], by simp [writes_after_mkdir, writes_before_mkdir], List.nil_prefix, by simp⟩
      | some c =>
        have hp : plannedWrite data e = some (outputPathOf p, processAllFiles c data) := by
          simp [plannedWrite, hd, hrel, hc]
        simp only
        by_cases hwr : env.writeFileOk (outputPathOf p) = true
        · rw [if_pos hwr]
          obtain ⟨l, h1, h2, h3⟩ := walkTemplates_writes env data rest
            (((if filepathDir (outputPathOf p) ≠ lit "." then
                w.emit (Event.mkdirAll (filepathDir (outputPathOf p))) else w).emit
              (Event.readFile e.path)).emit
              (Event.writeFile (outputPathOf p) (processAllFiles c data)))
          refine ⟨(outputPathOf p, processAllFiles c data) :: l, ?_, ?_, fun hok => ?_⟩
          · rw [h1]
            simp [writes_after_mkdir, writes_before_mkdir]
          · rw [List.filterMap_cons, hp]
            exact (List.prefix_cons_inj _).2 h2
          · obtain ⟨h4, h5⟩ := h3 hok
            refine ⟨by rw [List.filterMap_cons, hp, h4], ?_⟩
            intro e' he' hd'
            rcases List.mem_cons.1 he' with rfl | hm
            · rw [hp]; rfl
            · exact h5 e' hm hd'
        · rw [if_neg hwr]
          refine ⟨[(outputPathOf p, processAllFiles c data)], ?_, ?_, by simp⟩
          · simp [writes_after_mkdir, writes_before_mkdir]
          · rw [List.filterMap_cons, hp]
            exact (List.prefix_cons_inj _).2 List.nil_prefix

theorem generate_writes (env : Env) (data : TemplateData) (w : World) :
    ∃ l, writesOf (generateWebappFiles env data w).1.log = writesOf w.log ++ l ∧
      l <+: env.templates.filterMap (plannedWrite data) ∧
      ((generateWebappFiles env data w).2 = none →
        l = env.templates.filterMap (plannedWrite data) ∧
        ∀ e ∈ env.templates, e.isDir = false → (plannedWrite data e).isSome = true) := by
  obtain ⟨l, h1, h2, h3⟩ := walkTemplates_writes env data env.templates
    (w.emit (Event.enter Step.generateWebappFiles))
  exact ⟨l, by simpa [generateWebappFiles] using h1, h2, h3⟩

/-- C4: every path that `generateWebappFiles` hands to `os.WriteFile` is the
relative path, below `templates`, of a file of the tree with one trailing
`.tmpl` removed when the relative path ends with `.tmpl` (only one suffix is
removed) and the relative path itself otherwise; and when the function returns
no error, every file of the tree has been written at that path. -/
theorem generateWebappFiles_output_paths (env : Env) (data : TemplateData) (w : World) :
    (∀ path content, Event.writeFile path content ∈ (generateWebappFiles env data w).1.log →
      Event.writeFile path content ∈ w.log ∨
      ∃ e ∈ env.templates, ∃ p, e.isDir = false ∧
        filepathRel (lit "templates") e.path = some p ∧ StripsTmpl p path) ∧
    ((generateWebappFiles env data w).2 = none →
      ∀ e ∈ env.templates, e.isDir = false →
        ∃ p path content, filepathRel (lit "templates") e.path = some p ∧
          StripsTmpl p path ∧
          Event.writeFile path content ∈ (generateWebappFiles env data w).1.log) := by
  obtain ⟨l, h1, h2, h3⟩ := generate_writes env data w
  constructor
  · intro path content hmem
    rw [← mem_writesOf, h1, List.mem_append] at hmem
    rcases hmem with hmem | hmem
    · exact Or.inl ((mem_writesOf _ _ _).1 hmem)
    · right
      obtain ⟨e, he, hpe⟩ := List.mem_filterMap.1 (h2.subset hmem)
      obtain ⟨hd, p, c, hp, _, hpath, _⟩ := plannedWrite_some data e path content hpe
      exact ⟨e, he, p, hd, hp, by rw [hpath]; exact outputPathOf_stripsTmpl p⟩
  · intro hok e he hd
    obtain ⟨h4, h5⟩ := h3 hok
    have hs := h5 e he hd
    cases hpe : plannedWrite data e with
    | none => rw [hpe] at hs; exact absurd hs (by simp)
    | some pc =>
      obtain ⟨path, content⟩ := pc
      obtain ⟨_, p, c, hp, _, hpath, _⟩ := plannedWrite_some data e path content hpe
      refine ⟨p, path, content, hp, by rw [hpath]; exact outputPathOf_stripsTmpl p, ?_⟩
      rw [← mem_writesOf, h1, h4]
      exact List.mem_append_right _ (List.mem_filterMap.2 ⟨e, he, hpe⟩)

theorem generateWebappFiles_output_paths_witness :
    (generateWebappFiles pathEnv myAppData { cwd := lit "/work", log := [] }).2 = none ∧
    writesOf (generateWebappFiles pathEnv myAppData { cwd := lit "/work", log := [] }).1.log
      = [(lit "a/b/file.go", lit "package b"), (lit "c/file.go", lit "package c"),
         (lit "x.tmpl", lit "x")] ∧
    ∀ e ∈ pathEnv.templates, e.isDir = false →
      ∃ p path content, filepathRel (lit "templates") e.path = some p ∧
        StripsTmpl p path ∧
        Event.writeFile path content
          ∈ (generateWebappFiles pathEnv myAppData { cwd := lit "/work", log := [] }).1.log :=
  ⟨by decide, by decide,
    (generateWebappFiles_output_paths pathEnv myAppData { cwd := lit "/work", log := [] }).2
      (by decide)⟩

/-! ### Project names -/

theorem runSteps_not_emptyName (env : Env) (lib : Libs) (pn : Str) (c : Bool) (o : Str)
    (w : World) : (runSteps env lib pn c o w).2 ≠ some Err.emptyName := by
  unfold runSteps
  simp only
  split
  · simp
  · split_ifs <;> simp

theorem runSteps_enters_generate (env : Env) (lib : Libs) (pn : Str) (c : Bool) (o : Str)
    (w : World) : Step.generateWebappFiles ∈ stepsOf (runSteps env lib pn c o w).1.log := by
  have hs := generate_steps env (prepareTemplateData lib pn) w
  unfold runSteps
  simp only [renameEnvExample, executeGoModInit, installGoDependencies,
    installNodeDependencies]
  split
  · simp [restoreDir_steps, hs]
  · split_ifs <;> simp [restoreDir_steps, hs]

theorem runSteps_writes (env : Env) (lib : Libs) (pn : Str) (c : Bool) (o : Str)
    (w : World) :
    writesOf (runSteps env lib pn c o w).1.log
      = writesOf (generateWebappFiles env (prepareTemplateData lib pn) w).1.log ∧
    ((runSteps env lib pn c o w).2 = none →
      (generateWebappFiles env (prepareTemplateData lib pn) w).2 = none) := by
  unfold runSteps
  simp only [renameEnvExample, executeGoModInit, installGoDependencies,
    installNodeDependencies]
  split
  · simp [restoreDir_writes]
  · rename_i hgen
    refine ⟨?_, fun _ => hgen⟩
    split_ifs <;> simp [restoreDir_writes]

/-- The files a run writes are the planned writes of the template tree for
the template data of the trimmed project name, in order, up to the point
where the run stops; all of them when the run returns no error. -/
theorem runWebapp_writes (env : Env) (lib : Libs) (args : List Str) (cwd : Str) :
    writesOf (runWebapp env lib args cwd).1.log <+:
      env.templates.filterMap
        (plannedWrite (prepareTemplateData lib (TrimSpace (requestedName args cwd)))) ∧
    ((runWebapp env lib args cwd).2 = none →
      writesOf (runWebapp env lib args cwd).1.log =
        env.templates.filterMap
          (plannedWrite (prepareTemplateData lib (TrimSpace (requestedName args cwd)))) ∧
      ∀ e ∈ env.templates, e.isDir = false →
        (plannedWrite (prepareTemplateData lib (TrimSpace (requestedName args cwd))) e).isSome
          = true) := by
  apply runWebapp_cases
    (fun r => writesOf r.1.log <+:
        env.templates.filterMap
          (plannedWrite (prepareTemplateData lib (TrimSpace (requestedName args cwd)))) ∧
      (r.2 = none →
        writesOf r.1.log =
          env.templates.filterMap
            (plannedWrite (prepareTemplateData lib (TrimSpace (requestedName args cwd)))) ∧
        ∀ e ∈ env.templates, e.isDir = false →
          (plannedWrite (prepareTemplateData lib (TrimSpace (requestedName args cwd))) e).isSome
            = true))
  · intro w' e _ h2 _
    simp only [h2]
    exact ⟨List.nil_prefix, fun h => absurd h (by simp)⟩
  · intro _ w' c o _ h2
    obtain ⟨h3, h4⟩ := runSteps_writes env lib (TrimSpace (requestedName args cwd)) c o w'
    obtain ⟨l, h5, h6, h7⟩ := generate_writes env
      (prepareTemplateData lib (TrimSpace (requestedName args cwd))) w'
    rw [h2, List.nil_append] at h5
    simp only [h3, h5]
    refine ⟨h6, fun hok => ?_⟩
    exact h7 (h4 hok)

/-- A run with an explicit, non-empty name never returns the empty-name
error: the check is made on the argument as given. -/
theorem runWebapp_named_not_emptyName (env : Env) (lib : Libs) (name : Str)
    (rest : List Str) (cwd : Str) (hname : name ≠ []) :
    (runWebapp env lib (name :: rest) cwd).2 ≠ some Err.emptyName := by
  unfold runWebapp runNamed
  simp only [if_neg hname]
  split_ifs <;> first | exact runSteps_not_emptyName _ _ _ _ _ _ | simp

/-- C2 (the code at the failing input): for the argument of two spaces,
whatever the surroundings answer, `runWebapp` does not return the empty-name
error although the trimmed name is empty; where `os.Stat("")` reports a
missing directory and `os.MkdirAll("")` fails, as they do, the run has called
both and returns the error of the directory creation. -/
theorem runWebapp_blank_name_passes_validation (env : Env) (lib : Libs) (cwd : Str) :
    TrimSpace (lit "  ") = [] ∧
    (runWebapp env lib [lit "  "] cwd).2 ≠ some Err.emptyName ∧
    (runWebapp { env with projectDirMissing := true, mkdirProjectOk := false } lib
        [lit "  "] cwd)
      = ({ cwd := cwd, log := [Event.stat [], Event.mkdirAll []] },
          some Err.createProjectDir) := by
  refine ⟨by decide, runWebapp_named_not_emptyName env lib _ _ cwd (by decide), ?_⟩
  have ht : TrimSpace (lit "  ") = [] := by decide
  have hn : lit "  " ≠ [] := by decide
  unfold runWebapp runNamed
  simp only [if_neg hn, ht]
  simp [World.emit]

/-- C5 (the code at the failing input): for the name `my_app` the title caser
is handed `my_app`, the underscore kept, where the specification has it
title-case `my app`; only `-` is replaced by a space. -/
theorem appTitle_keeps_underscore (lib : Libs) :
    (prepareTemplateData lib (lit "my_app")).AppTitle = lib.title (lit "my_app") ∧
    appTitleSpec lib (lit "my_app") = lib.title (lit "my app") ∧
    (prepareTemplateData lib (lit "my-app")).AppTitle = lib.title (lit "my app") ∧
    lit "my_app" ≠ lit "my app" := by
  have h1 : ReplaceAll (lit "my_app") (lit "-") (lit " ") = lit "my_app" := by decide
  have h2 : ReplaceAll (ReplaceAll (lit "my_app") (lit "-") (lit " ")) (lit "_") (lit " ")
      = lit "my app" := by decide
  have h3 : ReplaceAll (lit "my-app") (lit "-") (lit " ") = lit "my app" := by decide
  refine ⟨?_, ?_, ?_, by decide⟩
  · simp only [prepareTemplateData, h1]
  · simp only [appTitleSpec, h2]
  · simp only [prepareTemplateData, h3]

/-- C6 (the code at the failing input): for the word `élan`, whose first
character is not ASCII, `toCamelCase` upper-cases the rune that has the first
byte `0xC3` as its value and lower-cases the rest from the second byte of `é`
on, which gives `Ã`, U+FFFD and `lan`; the specification gives `Élan`.  On
`my-app` both give `MyApp`. -/
theorem toCamelCase_non_ascii_first :
    toCamelCase latin1Tables (lit "élan") = lit "Ã�lan" ∧
    toCamelCaseSpec latin1Tables (lit "élan") = lit "Élan" ∧
    toCamelCase latin1Tables (lit "my-app") = lit "MyApp" ∧
    toCamelCaseSpec latin1Tables (lit "my-app") = lit "MyApp" := by decide

theorem sep_lt (b : Nat) (h : isNameSeparator b = true) : b < 0x80 := by
  simp [isNameSeparator] at h
  omega

theorem trimSpaceEnd_mem : ∀ rev : Str, (∀ b ∈ rev, b < 0x80) →
    ∀ c ∈ trimSpaceEnd rev, c ∈ rev
  | [], _ => by simp [trimSpaceEnd]
  | b :: rev, h => by
    have hb : ¬ RuneSelf ≤ b := by
      have := h b (List.mem_cons_self _ _)
      simp only [RuneSelf]; omega
    rw [trimSpaceEnd, if_neg hb]
    split
    · intro c hc
      exact List.mem_cons_of_mem _
        (trimSpaceEnd_mem rev (fun x hx => h x (List.mem_cons_of_mem _ hx)) c hc)
    · intro c hc
      exact List.mem_reverse.1 hc

theorem trimSpaceStart_mem : ∀ s : Str, (∀ b ∈ s, b < 0x80) →
    ∀ c ∈ trimSpaceStart s, c ∈ s
  | [], _ => by simp [trimSpaceStart]
  | b :: rest, h => by
    have hb : ¬ RuneSelf ≤ b := by
      have := h b (List.mem_cons_self _ _)
      simp only [RuneSelf]; omega
    rw [trimSpaceStart, if_neg hb]
    split
    · intro c hc
      exact List.mem_cons_of_mem _
        (trimSpaceStart_mem rest (fun x hx => h x (List.mem_cons_of_mem _ hx)) c hc)
    · intro c hc
      have := trimSpaceEnd_mem (b :: rest).reverse
        (fun x hx => h x (List.mem_reverse.1 hx)) c hc
      exact List.mem_reverse.1 this

theorem fieldsFrom_allSep : ∀ s : Str, (∀ b ∈ s, isNameSeparator b = true) →
    fieldsFrom isNameSeparator 0 none s = []
  | [], _ => rfl
  | b :: rest, h => by
    have hb := h b (List.mem_cons_self _ _)
    rw [fieldsFrom, decodeRune_ascii b rest (sep_lt b hb)]
    simp only [hb, if_true, closeField, List.nil_append]
    exact fieldsFrom_allSep rest (fun x hx => h x (List.mem_cons_of_mem _ hx))

theorem toCamelCase_allSep (t : CaseTables) (s : Str)
    (h : ∀ b ∈ s, isNameSeparator b = true) : toCamelCase t s = [] := by
  simp [toCamelCase, FieldsFunc, fieldsFrom_allSep s h]

/-- The empty-name error is returned only for an empty requested name. -/
theorem runWebapp_emptyName_only (env : Env) (lib : Libs) (args : List Str) (cwd : Str)
    (hname : requestedName args cwd ≠ []) :
    (runWebapp env lib args cwd).2 ≠ some Err.emptyName := by
  unfold runWebapp
  cases args with
  | nil =>
    simp only [requestedName] at hname
    simp only
    split
    · unfold runNamed
      rw [if_neg hname]
      simp only
      split_ifs <;> first | exact runSteps_not_emptyName _ _ _ _ _ _ | simp
    · simp
  | cons arg rest =>
    simp only [requestedName] at hname
    unfold runNamed
    simp only [if_neg hname]
    split_ifs <;> first | exact runSteps_not_emptyName _ _ _ _ _ _ | simp

/-- When the name is settled and the project directory, if one is asked for,
can be created and entered, the run calls `generateWebappFiles`. -/
theorem runWebapp_enters_generate (env : Env) (lib : Libs) (args : List Str) (cwd : Str)
    (hname : requestedName args cwd ≠ []) (htrim : TrimSpace (requestedName args cwd) ≠ [])
    (hget : args = [] → env.getwdOk = true)
    (hmk : args ≠ [] → env.projectDirMissing = true → env.mkdirProjectOk = true)
    (hcd : args ≠ [] → env.chdirProjectOk = true) :
    Step.generateWebappFiles ∈ stepsOf (runWebapp env lib args cwd).1.log := by
  unfold runWebapp
  cases args with
  | nil =>
    simp only [requestedName] at hname
    simp only [hget rfl, if_true]
    unfold runNamed
    simp only [if_neg hname, Bool.false_eq_true, false_and, if_false]
    exact runSteps_enters_generate _ _ _ _ _ _
  | cons arg rest =>
    simp only [requestedName] at hname htrim
    unfold runNamed
    simp only [if_neg hname, if_true, true_and]
    have hno : ¬ (env.projectDirMissing = true ∧ env.mkdirProjectOk = false) := by
      rintro ⟨h1, h2⟩
      rw [hmk (by simp) h1] at h2
      exact absurd h2 (by decide)
    rw [if_neg hno]
    unfold World.chdir
    have hd : decide (TrimSpace arg ≠ []) = true := decide_eq_true htrim
    simp only [hcd (by simp), Bool.true_and, hd, if_true, Bool.true_eq_false, if_false]
    exact runSteps_enters_generate _ _ _ _ _ _

/-- C8 (amended): for a project name, given as argument or taken from the
working directory, that is made only of `-`, `_` and spaces and whose trimmed
form is not empty, `runWebapp` does not return the validation error.  The
template data of the run has an empty `AppTitleCamel`: every content the run
writes is a template content processed with that data, when the run returns no
error every file of the tree has been written so, and when the project
directory can be created and entered `generateWebappFiles` is called. -/
theorem runWebapp_separator_name (env : Env) (lib : Libs) (args : List Str) (cwd : Str)
    (hsep : ∀ b ∈ requestedName args cwd, isNameSeparator b = true)
    (htrim : TrimSpace (requestedName args cwd) ≠ []) :
    (runWebapp env lib args cwd).2 ≠ some Err.emptyName ∧
    (∀ path content, Event.writeFile path content ∈ (runWebapp env lib args cwd).1.log →
      ∃ e ∈ env.templates, ∃ c, e.content = some c ∧
        content = processAllFiles c
          (emptyCamelData lib (TrimSpace (requestedName args cwd)))) ∧
    ((runWebapp env lib args cwd).2 = none →
      ∀ e ∈ env.templates, e.isDir = false →
        ∃ path c, e.content = some c ∧
          Event.writeFile path
              (processAllFiles c (emptyCamelData lib (TrimSpace (requestedName args cwd))))
            ∈ (runWebapp env lib args cwd).1.log) ∧
    ((args = [] → env.getwdOk = true) →
      (args ≠ [] → env.projectDirMissing = true → env.mkdirProjectOk = true) →
      (args ≠ [] → env.chdirProjectOk = true) →
      Step.generateWebappFiles ∈ stepsOf (runWebapp env lib args cwd).1.log) := by
  have hname : requestedName args cwd ≠ [] := by
    intro h
    rw [h] at htrim
    exact htrim rfl
  have hcamel : toCamelCase lib.cases (TrimSpace (requestedName args cwd)) = [] := by
    apply toCamelCase_allSep
    intro b hb
    exact hsep b (trimSpaceStart_mem _ (fun x hx => sep_lt x (hsep x hx)) b hb)
  have hdata : prepareTemplateData lib (TrimSpace (requestedName args cwd))
      = emptyCamelData lib (TrimSpace (requestedName args cwd)) := by
    simp only [prepareTemplateData, emptyCamelData, hcamel]
  obtain ⟨h1, h2⟩ := runWebapp_writes env lib args cwd
  rw [hdata] at h1 h2
  refine ⟨runWebapp_emptyName_only env lib args cwd hname, ?_, ?_,
    fun hget hmk hcd => runWebapp_enters_generate env lib args cwd hname htrim hget hmk hcd⟩
  · intro path content hmem
    rw [← mem_writesOf] at hmem
    obtain ⟨e, he, hpe⟩ := List.mem_filterMap.1 (h1.subset hmem)
    obtain ⟨_, p, c, _, hc, _, hcontent⟩ := plannedWrite_some _ e path content hpe
    exact ⟨e, he, c, hc, hcontent⟩
  · intro hok e he hd
    obtain ⟨h3, h4⟩ := h2 hok
    have hs := h4 e he hd
    cases hpe : plannedWrite (emptyCamelData lib (TrimSpace (requestedName args cwd))) e with
    | none => rw [hpe] at hs; exact absurd hs (by simp)
    | some pc =>
      obtain ⟨path, content⟩ := pc
      obtain ⟨_, p, c, _, hc, _, hcontent⟩ := plannedWrite_some _ e path content hpe
      refine ⟨path, c, hc, ?_⟩
      rw [← hcontent, ← mem_writesOf, h3]
      exact List.mem_filterMap.2 ⟨e, he, hpe⟩

theorem runWebapp_separator_name_witness :
    (runWebapp okEnv plainLibs [lit "_-_"] (lit "/work")).2 = none ∧
    Event.writeFile (lit "views/index.html")
        (lit "<title>_ _</title><div id=\"\">")
      ∈ (runWebapp okEnv plainLibs [lit "_-_"] (lit "/work")).1.log ∧
    (∀ path content,
      Event.writeFile path content ∈ (runWebapp okEnv plainLibs [lit "_-_"] (lit "/work")).1.log →
      ∃ e ∈ okEnv.templates, ∃ c, e.content = some c ∧
        content = processAllFiles c
          (emptyCamelData plainLibs (TrimSpace (requestedName [lit "_-_"] (lit "/work"))))) ∧
    Step.generateWebappFiles
      ∈ stepsOf (runWebapp okEnv plainLibs [] (lit "/work/---")).1.log :=
  ⟨by decide, by decide,
    (runWebapp_separator_name okEnv plainLibs [lit "_-_"] (lit "/work")
      (by decide) (by decide)).2.1,
    (runWebapp_separator_name okEnv plainLibs [] (lit "/work/---")
      (by decide) (by decide)).2.2.2 (fun _ => rfl) (fun h => absurd rfl h)
      (fun h => absurd rfl h)⟩

/-- C8 (as stated) fails: for the name `---`, in surroundings where every call
succeeds, `runWebapp` returns no error, builds template data with an empty
`AppTitleCamel` and writes the files. -/
theorem runWebapp_accepts_separator_name :
    (runWebapp okEnv plainLibs [lit "---"] (lit "/work")).2 = none ∧
    (prepareTemplateData plainLibs (lit "---")).AppTitleCamel = [] ∧
    Event.writeFile (lit "main.go") (lit "log.SetPrefix(\"---: \")")
      ∈ (runWebapp okEnv plainLibs [lit "---"] (lit "/work")).1.log := by decide

theorem runWebapp_restores_cwd_witness :
    nodeFailEnv.getwdOk = true ∧ nodeFailEnv.chdirBackOk = true ∧
      HasPrefix (lit "/work") [Separator] = true ∧
      Event.chdir (lit "my-app")
        ∈ (runWebapp nodeFailEnv plainLibs [lit "my-app"] (lit "/work")).1.log ∧
      (runWebapp nodeFailEnv plainLibs [lit "my-app"] (lit "/work")).1.cwd = lit "/work" :=
  ⟨rfl, rfl, by decide, by decide,
    runWebapp_restores_cwd nodeFailEnv plainLibs [lit "my-app"] (lit "/work") rfl rfl
      (by decide)⟩

end Initgo
